import Mathlib

/-!
Verification development for the EdgePrompt research runner
(`research/runner/`): a shallow embedding, in Lean, of the
structured-output extractor (`evaluation_engine._parse_json_from_llm_output`),
the multi-stage validator (`evaluation_engine.validate_result`), the
constraint enforcer (`constraint_enforcer.enforce_constraints`), the metrics
collector (`metrics_collector.record_tokens` / `merge_metrics`) and the
four-run orchestration control flow (`runner_core`), together with theorems
settling the behavioural claims made in the specification.

Modelling conventions:
* Python values are modelled by the inductive `PyVal`; Python dicts are
  insertion-ordered association lists.
* Python floats are modelled as exact rationals.
* Text is modelled as `List Char` (`String.data`).  The three concrete regex
  patterns used by the extractor are hand-compiled into scanning functions
  that mirror the backtracking semantics of `re.search` / `re.findall` on
  those particular patterns.
* Calls into external model backends (the spec, section 6, model-execution
  boundary) are modelled as oracle parameters.
-/

set_option allowUnsafeReducibility true
attribute [local semireducible] Rat.mul Rat.add Rat.sub Rat.div Rat.inv Rat.neg
attribute [local semireducible] Rat.normalize Rat.ofScientific Rat.floor Rat.blt

namespace EdgePrompt

/-- Model of a Python value, as produced by `json.loads` and manipulated by
the runner.  Dicts are insertion-ordered association lists.  `float` is an
exact rational. -/
inductive PyVal where
  | none
  | bool (b : Bool)
  | int (n : Int)
  | float (q : ℚ)
  | str (s : String)
  | list (elems : List PyVal)
  | obj (kvs : List (String × PyVal))
deriving Repr

/-- Dict lookup (`d.get(k)` / `k in d`): first binding wins. -/
def lookupKey : List (String × PyVal) → String → Option PyVal
  | [], _ => Option.none
  | (k, v) :: rest, key => if k = key then some v else lookupKey rest key

/-- Dict assignment `d[k] = v`: replaces the value in place when the key is
present, appends a new binding otherwise (Python dicts keep insertion
order). -/
def upsert : List (String × PyVal) → String → PyVal → List (String × PyVal)
  | [], key, v => [(key, v)]
  | (k, w) :: rest, key, v =>
    if k = key then (k, v) :: rest else (k, w) :: upsert rest key v

/-- Python truthiness (`bool(x)`) of a value. -/
def pyFalsy : PyVal → Bool
  | .none => true
  | .bool b => !b
  | .int n => n == 0
  | .float q => q == 0
  | .str s => s.isEmpty
  | .list xs => xs.isEmpty
  | .obj kvs => kvs.isEmpty

def pyTruthy (v : PyVal) : Bool := !pyFalsy v

/-- `isinstance(x, bool)`. -/
def isBoolVal : PyVal → Bool
  | .bool _ => true
  | _ => false

/-- `isinstance(x, (int, float))`.  In Python `bool` is a subclass of `int`,
so booleans satisfy this check. -/
def isNumVal : PyVal → Bool
  | .bool _ => true
  | .int _ => true
  | .float _ => true
  | _ => false

/-- `isinstance(x, str)`. -/
def isStrVal : PyVal → Bool
  | .str _ => true
  | _ => false

/-- `float(x)` on a value that passed `isNumVal`; other arms are never
reached by the callers in this development. -/
def pyFloat : PyVal → ℚ
  | .bool b => if b then 1 else 0
  | .int n => (n : ℚ)
  | .float q => q
  | _ => 0

/-- Numeric reading of a value, used where the source does arithmetic on a
value that the extractor guarantees to be a float. -/
def pyNum : PyVal → ℚ := pyFloat

/-- String reading of a value (defaults to the empty string). -/
def pyStr : PyVal → String
  | .str s => s
  | _ => ""

/-! ## Character classes -/

/-- Whitespace accepted by the JSON grammar (`json.loads`). -/
def isJsonWs (c : Char) : Bool :=
  c == ' ' || c == '\t' || c == '\n' || c == '\r'

/-- Whitespace matched by the regex class `\s` (ASCII part). -/
def isReWs (c : Char) : Bool :=
  c == ' ' || c == '\t' || c == '\n' || c == '\r' || c == '\x0b' || c == '\x0c'

/-- ASCII decimal digit. -/
def isDigitCh (c : Char) : Bool := Nat.ble 48 c.toNat && Nat.ble c.toNat 57

/-- Character class `[a-zA-Z_]` of the bullet-pattern key. -/
def isKeyChar (c : Char) : Bool :=
  (Nat.ble 97 c.toNat && Nat.ble c.toNat 122) ||
  (Nat.ble 65 c.toNat && Nat.ble c.toNat 90) || c == '_'

/-- Word character for `\w` and `\b` (ASCII part): `[a-zA-Z0-9_]`. -/
def isWordChar (c : Char) : Bool := isKeyChar c || isDigitCh c

/-- ASCII lower-casing of one character (`str.lower`). -/
def lowerCh (c : Char) : Char :=
  if Nat.ble 65 c.toNat && Nat.ble c.toNat 90 then Char.ofNat (c.toNat + 32) else c

/-- Greedy span: longest prefix satisfying `p`, and the rest. -/
def spanP (p : Char → Bool) : List Char → List Char × List Char
  | [] => ([], [])
  | c :: cs =>
    if p c then
      let r := spanP p cs
      (c :: r.1, r.2)
    else ([], c :: cs)

/-! ## `json.loads` (restricted to the JSON grammar; floats are exact
rationals, `NaN`/`Infinity` extensions are not modelled) -/

/-- Does `cs` start with the given character sequence? -/
def startsWithChars : List Char → List Char → Bool
  | _, [] => true
  | [], _ :: _ => false
  | c :: cs, p :: ps => c == p && startsWithChars cs ps

def hexVal (c : Char) : Option Nat :=
  if isDigitCh c then some (c.toNat - 48)
  else if Nat.ble 97 c.toNat && Nat.ble c.toNat 102 then some (c.toNat - 87)
  else if Nat.ble 65 c.toNat && Nat.ble c.toNat 70 then some (c.toNat - 55)
  else Option.none

/-- Body of a JSON string literal: input is the characters after the opening
quote; returns the decoded content and the rest after the closing quote.
Rejects raw control characters and invalid escapes, as `json.loads` does. -/
def parseStringBody : List Char → Option (List Char × List Char)
  | [] => Option.none
  | c :: cs =>
    if c = '"' then some ([], cs)
    else if c = '\\' then
      match cs with
      | [] => Option.none
      | e :: cs2 =>
        if e = '"' then (parseStringBody cs2).map (fun p => ('"' :: p.1, p.2))
        else if e = '\\' then (parseStringBody cs2).map (fun p => ('\\' :: p.1, p.2))
        else if e = '/' then (parseStringBody cs2).map (fun p => ('/' :: p.1, p.2))
        else if e = 'b' then (parseStringBody cs2).map (fun p => ('\x08' :: p.1, p.2))
        else if e = 'f' then (parseStringBody cs2).map (fun p => ('\x0c' :: p.1, p.2))
        else if e = 'n' then (parseStringBody cs2).map (fun p => ('\n' :: p.1, p.2))
        else if e = 'r' then (parseStringBody cs2).map (fun p => ('\r' :: p.1, p.2))
        else if e = 't' then (parseStringBody cs2).map (fun p => ('\t' :: p.1, p.2))
        else if e = 'u' then
          match cs2 with
          | h1 :: h2 :: h3 :: h4 :: cs3 =>
            match hexVal h1, hexVal h2, hexVal h3, hexVal h4 with
            | some a, some b, some c, some d =>
              (parseStringBody cs3).map
                (fun p => (Char.ofNat (((a * 16 + b) * 16 + c) * 16 + d) :: p.1, p.2))
            | _, _, _, _ => Option.none
          | _ => Option.none
        else Option.none
    else if Nat.blt c.toNat 32 then Option.none
    else (parseStringBody cs).map (fun p => (c :: p.1, p.2))

/-- Value of a list of ASCII digits. -/
def digitsToNat (ds : List Char) : Nat :=
  ds.foldl (fun a c => a * 10 + (c.toNat - 48)) 0

/-- Integer power of ten over the rationals, kept kernel-computable. -/
def pow10 : Int → ℚ
  | .ofNat n => ((10 ^ n : ℕ) : ℚ)
  | .negSucc n => 1 / ((10 ^ (n + 1) : ℕ) : ℚ)

/-- JSON number: `-? int frac? exp?`, leading zeros rejected.  A number with
a fraction or exponent is a Python float, otherwise an int. -/
def parseNumberChars (cs : List Char) : Option (PyVal × List Char) :=
  let sgn : Bool × List Char :=
    if cs.head? == some '-' then (true, cs.tail) else (false, cs)
  let neg := sgn.1
  let ipr := spanP isDigitCh sgn.2
  let ip := ipr.1
  if ip.isEmpty then Option.none
  else if Nat.blt 1 ip.length && ip.head? == some '0' then Option.none
  else
    let frac : Bool × List Char × List Char := match ipr.2 with
      | '.' :: r =>
        let fr := spanP isDigitCh r
        (true, fr.1, fr.2)
      | _ => (false, [], ipr.2)
    let hasFrac := frac.1
    let fp := frac.2.1
    if hasFrac && fp.isEmpty then Option.none
    else
      let ex : Bool × Bool × List Char × List Char := match frac.2.2 with
        | e :: r =>
          if e = 'e' || e = 'E' then
            match r with
            | '+' :: r2 =>
              let er := spanP isDigitCh r2
              (true, false, er.1, er.2)
            | '-' :: r2 =>
              let er := spanP isDigitCh r2
              (true, true, er.1, er.2)
            | _ =>
              let er := spanP isDigitCh r
              (true, false, er.1, er.2)
          else (false, false, [], e :: r)
        | [] => (false, false, [], [])
      let hasExp := ex.1
      let ep := ex.2.2.1
      if hasExp && ep.isEmpty then Option.none
      else
        let mant : Int := Int.ofNat (digitsToNat (ip ++ fp))
        let mant := if neg then -mant else mant
        if hasExp || hasFrac then
          let e10 : Int :=
            (if ex.2.1 then -(Int.ofNat (digitsToNat ep)) else Int.ofNat (digitsToNat ep))
              - Int.ofNat fp.length
          some (.float ((mant : ℚ) * pow10 e10), ex.2.2.2)
        else some (.int mant, ipr.2)

mutual

/-- Recursive-descent JSON value parser (fuel-indexed). -/
def parseValue : Nat → List Char → Option (PyVal × List Char)
  | 0, _ => Option.none
  | fuel + 1, cs =>
    match cs.dropWhile isJsonWs with
    | [] => Option.none
    | c :: r =>
      if c = '{' then
        match r.dropWhile isJsonWs with
        | '}' :: rest => some (.obj [], rest)
        | _ => (parseMembers fuel r []).map (fun p => (.obj p.1, p.2))
      else if c = '[' then
        match r.dropWhile isJsonWs with
        | ']' :: rest => some (.list [], rest)
        | _ => (parseElems fuel r []).map (fun p => (.list p.1, p.2))
      else if c = '"' then (parseStringBody r).map (fun p => (.str (String.mk p.1), p.2))
      else if c = 't' then
        if startsWithChars r (['r', 'u', 'e']) then some (.bool true, r.drop 3)
        else Option.none
      else if c = 'f' then
        if startsWithChars r (['a', 'l', 's', 'e']) then some (.bool false, r.drop 4)
        else Option.none
      else if c = 'n' then
        if startsWithChars r (['u', 'l', 'l']) then some (.none, r.drop 3)
        else Option.none
      else if c = '-' || isDigitCh c then parseNumberChars (c :: r)
      else Option.none

/-- Members of a JSON object, after the opening brace (duplicate keys
overwrite, as in `json.loads`). -/
def parseMembers : Nat → List Char → List (String × PyVal) →
    Option (List (String × PyVal) × List Char)
  | 0, _, _ => Option.none
  | fuel + 1, cs, acc =>
    match cs.dropWhile isJsonWs with
    | '"' :: r =>
      (match parseStringBody r with
       | Option.none => Option.none
       | some (key, r2) =>
         match r2.dropWhile isJsonWs with
         | ':' :: r3 =>
           (match parseValue fuel r3 with
            | Option.none => Option.none
            | some (v, r4) =>
              let acc2 := upsert acc (String.mk key) v
              match r4.dropWhile isJsonWs with
              | ',' :: r5 => parseMembers fuel r5 acc2
              | '}' :: r5 => some (acc2, r5)
              | _ => Option.none)
         | _ => Option.none)
    | _ => Option.none

/-- Elements of a JSON array, after the opening bracket. -/
def parseElems : Nat → List Char → List PyVal → Option (List PyVal × List Char)
  | 0, _, _ => Option.none
  | fuel + 1, cs, acc =>
    match parseValue fuel cs with
    | Option.none => Option.none
    | some (v, r) =>
      match r.dropWhile isJsonWs with
      | ',' :: r2 => parseElems fuel r2 (acc ++ [v])
      | ']' :: r2 => some (acc ++ [v], r2)
      | _ => Option.none

end

/-- `json.loads` on a character list: one value, then only whitespace may
remain. -/
def jsonLoadsChars (cs : List Char) : Option PyVal :=
  match parseValue (cs.length + 2) cs with
  | some (v, rest) => if (rest.dropWhile isJsonWs).isEmpty then some v else Option.none
  | Option.none => Option.none

example : jsonLoadsChars ("\x7b\"passed\": true, \"score\": 0.5, \"feedback\": \"ok\"\x7d".data)
    = some (.obj [("passed", .bool true), ("score", .float (1/2)), ("feedback", .str "ok")]) := by
  rfl

example : jsonLoadsChars ("\x7b\"a\": [1, -2.5e1, null]\x7d".data)
    = some (.obj [("a", .list [.int 1, .float (-25), .none])]) := by
  rfl

example : jsonLoadsChars ("\x7b\"a\": 1\x7d trailing".data) = Option.none := by rfl

example : jsonLoadsChars ("true".data) = some (.bool true) := by rfl

example : jsonLoadsChars ("not json".data) = Option.none := by rfl


/-! ## The extraction regexes of `_parse_json_from_llm_output`, hand-compiled

The extractor uses three concrete patterns (searched with `re.DOTALL`):
pattern 1 matches a brace block in a fenced code block with an optional
`json` label, pattern 2 the same without the label, pattern 3 a brace block
followed only by whitespace at the end of the text.  The scanners below
reproduce the leftmost-first search order and the lazy semantics of the
captured group. -/

/-- The three-backtick fence marker. -/
def fenceMark : List Char := ['\x60', '\x60', '\x60']

/-- After a candidate closing brace: `\s*` then a fence (`\s*` greedy with
backtracking is equivalent to skipping the maximal whitespace run, because a
backtick is not whitespace). -/
def fenceAfter (cs : List Char) : Bool :=
  startsWithChars (cs.dropWhile isReWs) fenceMark

/-- The lazy group `(\{.*?\})` followed by `\s*` and a fence: extend the
capture to the first closing brace from which the rest of the pattern
matches. -/
def lazyClose (acc : List Char) : List Char → Option (List Char)
  | [] => Option.none
  | c :: cs =>
    if c = '}' && fenceAfter cs then some (acc ++ ['}'])
    else lazyClose (acc ++ [c]) cs

/-- After the opening fence (and optional label): `\s*` then the lazy brace
group (`\s*` greedy with backtracking is equivalent to skipping the maximal
whitespace run, because a brace is not whitespace). -/
def fenceBody (rest : List Char) : Option (List Char) :=
  match rest.dropWhile isReWs with
  | '{' :: body => lazyClose ['{'] body
  | _ => Option.none

/-- Pattern 1 anchored at the current position, with the backtracking order
of `(?:json)?`: the labelled alternative is preferred. -/
def fenceAt1 (cs : List Char) : Option (List Char) :=
  if startsWithChars cs fenceMark then
    let after := cs.drop 3
    let labelled :=
      if startsWithChars after ("json".data) then fenceBody (after.drop 4)
      else Option.none
    match labelled with
    | some cap => some cap
    | Option.none => fenceBody after
  else Option.none

/-- Pattern 2 anchored at the current position (no label alternative). -/
def fenceAt2 (cs : List Char) : Option (List Char) :=
  if startsWithChars cs fenceMark then fenceBody (cs.drop 3) else Option.none

/-- `re.search` for pattern 1: leftmost position whose anchored match
succeeds. -/
def scanFence1 : List Char → Option (List Char)
  | [] => Option.none
  | c :: cs =>
    match fenceAt1 (c :: cs) with
    | some cap => some cap
    | Option.none => scanFence1 cs

/-- `re.search` for pattern 2. -/
def scanFence2 : List Char → Option (List Char)
  | [] => Option.none
  | c :: cs =>
    match fenceAt2 (c :: cs) with
    | some cap => some cap
    | Option.none => scanFence2 cs

/-- `re.search` for pattern 3, `(\{.*?\})\s*$` with `DOTALL`: succeeds iff
the text, with trailing whitespace removed, ends in a closing brace and
contains an opening brace; the capture runs from the first opening brace of
the text to that final closing brace. -/
def patternEnd (cs : List Char) : Option (List Char) :=
  let t := (cs.reverse.dropWhile isReWs).reverse
  match t.getLast? with
  | some '}' =>
    let cap := t.dropWhile (fun c => !(c == '{'))
    if cap.isEmpty then Option.none else some cap
  | _ => Option.none

/-! ## The bullet-list fallback -/

/-- One attempted match of `-\s+([a-zA-Z_]+):\s+(.+)` anchored at the
current position.  Greedy runs with backtracking collapse to maximal spans
because the follow-up tokens are disjoint from the span classes; the one
genuine backtracking case (`\s+` before `(.+)` at the end of the text) is
handled by `backtrackTail`.  Returns (key, value, rest-after-match). -/
def backtrackTail (ws2 : List Char) : Option (List Char × List Char) :=
  let rs := spanP (fun ch => ch == '\n') ws2.reverse
  match rs.2 with
  | [] => Option.none
  | v :: front => if front.isEmpty then Option.none else some ([v], rs.1.reverse)

def matchBulletAt (c : Char) (cs : List Char) :
    Option (List Char × List Char × List Char) :=
  if c = '-' then
    let s1 := spanP isReWs cs
    if s1.1.isEmpty then Option.none
    else
      let s2 := spanP isKeyChar s1.2
      if s2.1.isEmpty then Option.none
      else
        match s2.2 with
        | ':' :: r3 =>
          let s3 := spanP isReWs r3
          if s3.1.isEmpty then Option.none
          else
            match s3.2 with
            | [] => (backtrackTail s3.1).map (fun p => (s2.1, p.1, p.2))
            | d :: r4 =>
              let s4 := spanP (fun ch => !(ch == '\n')) (d :: r4)
              some (s2.1, s4.1, s4.2)
        | _ => Option.none
  else Option.none

theorem spanP_append_eq (p : Char → Bool) (cs : List Char) :
    (spanP p cs).1 ++ (spanP p cs).2 = cs := by
  induction cs with
  | nil => simp [spanP]
  | cons c cs ih =>
    by_cases h : p c <;> simp [spanP, h, ih]

theorem spanP_snd_length_le (p : Char → Bool) (cs : List Char) :
    (spanP p cs).2.length ≤ cs.length := by
  conv_rhs => rw [← spanP_append_eq p cs]
  simp

theorem spanP_fst_length_le (p : Char → Bool) (cs : List Char) :
    (spanP p cs).1.length ≤ cs.length := by
  conv_rhs => rw [← spanP_append_eq p cs]
  simp

theorem backtrackTail_snd_length_le (ws2 : List Char) (v rest : List Char)
    (h : backtrackTail ws2 = some (v, rest)) : rest.length ≤ ws2.length := by
  simp only [backtrackTail] at h
  split at h
  · exact absurd h (by simp)
  · split at h
    · exact absurd h (by simp)
    · simp only [Option.some.injEq, Prod.mk.injEq] at h
      rcases h with ⟨-, hrest⟩
      subst hrest
      have := spanP_fst_length_le (fun ch => ch == '\n') ws2.reverse
      simpa using this

theorem matchBulletAt_rest_le (c : Char) (cs : List Char)
    (k v rest : List Char) (h : matchBulletAt c cs = some (k, v, rest)) :
    rest.length ≤ cs.length := by
  simp only [matchBulletAt] at h
  split at h
  case isFalse => exact absurd h (by simp)
  have l1 : (spanP isReWs cs).2.length ≤ cs.length := spanP_snd_length_le _ _
  split at h
  · exact absurd h (by simp)
  have l2 : (spanP isKeyChar (spanP isReWs cs).2).2.length ≤
      (spanP isReWs cs).2.length := spanP_snd_length_le _ _
  split at h
  · exact absurd h (by simp)
  split at h
  case h_2 => exact absurd h (by simp)
  rename_i r3 heq
  rw [heq] at l2
  split at h
  · exact absurd h (by simp)
  have l3 : (spanP isReWs r3).2.length ≤ r3.length := spanP_snd_length_le _ _
  have l3f : (spanP isReWs r3).1.length ≤ r3.length := spanP_fst_length_le _ _
  split at h
  case h_1 heq2 =>
    rcases h6 : backtrackTail (spanP isReWs r3).1 with _ | ⟨vv, rr⟩ <;>
      rw [h6] at h
    · exact absurd h (by simp)
    · simp only [Option.map_some', Option.some.injEq, Prod.mk.injEq] at h
      rcases h with ⟨-, -, hrest⟩
      have := backtrackTail_snd_length_le _ _ _ h6
      subst hrest
      simp only [List.length_cons] at l2
      omega
  case h_2 d r4 heq2 =>
    simp only [Option.some.injEq, Prod.mk.injEq] at h
    rcases h with ⟨-, -, hrest⟩
    have l4 : (spanP (fun ch => !(ch == '\n')) (d :: r4)).2.length ≤
        (d :: r4).length := spanP_snd_length_le _ _
    rw [heq2] at l3
    subst hrest
    simp only [List.length_cons] at l2 l3 l4
    omega

/-- `re.findall` for the bullet pattern: scan left to right, and continue
after the end of each match (fuel-indexed; the wrapper below supplies
sufficient fuel). -/
def findallBulletF : Nat → List Char → List (List Char × List Char)
  | 0, _ => []
  | _, [] => []
  | fuel + 1, c :: cs =>
    match matchBulletAt c cs with
    | some (k, v, rest) => (k, v) :: findallBulletF fuel rest
    | Option.none => findallBulletF fuel cs

/-- `re.findall` for the bullet pattern `-\\s+([a-zA-Z_]+):\\s+(.+)`. -/
def findallBullet (cs : List Char) : List (List Char × List Char) :=
  findallBulletF (cs.length + 1) cs

theorem findallBulletF_fuel_irrel (fuel fuel2 : Nat) (cs : List Char)
    (h : cs.length < fuel) (h2 : cs.length < fuel2) :
    findallBulletF fuel cs = findallBulletF fuel2 cs := by
  induction fuel generalizing fuel2 cs with
  | zero => omega
  | succ fuel ih =>
    rcases cs with _ | ⟨c, cs⟩
    · rcases fuel2 with _ | fuel2 <;> rfl
    · rcases fuel2 with _ | fuel2
      · omega
      · show (match matchBulletAt c cs with
          | some (k, v, rest) => (k, v) :: findallBulletF fuel rest
          | Option.none => findallBulletF fuel cs) =
          (match matchBulletAt c cs with
          | some (k, v, rest) => (k, v) :: findallBulletF fuel2 rest
          | Option.none => findallBulletF fuel2 cs)
        rcases hm : matchBulletAt c cs with _ | ⟨k, v, rest⟩
        · simp only [List.length_cons] at h h2
          exact ih fuel2 cs (by omega) (by omega)
        · have hr := matchBulletAt_rest_le c cs k v rest hm
          simp only [List.length_cons] at h h2
          simp only []
          rw [ih fuel2 rest (by omega) (by omega)]

theorem findallBullet_nil : findallBullet [] = [] := rfl

theorem findallBullet_cons_some (c : Char) (cs k v rest : List Char)
    (h : matchBulletAt c cs = some (k, v, rest)) :
    findallBullet (c :: cs) = (k, v) :: findallBullet rest := by
  show findallBulletF (cs.length + 1 + 1) (c :: cs) = _
  have step : findallBulletF (cs.length + 1 + 1) (c :: cs) =
      (k, v) :: findallBulletF (cs.length + 1) rest := by
    show (match matchBulletAt c cs with
      | some (k, v, rest) => (k, v) :: findallBulletF (cs.length + 1) rest
      | Option.none => findallBulletF (cs.length + 1) cs) = _
    rw [h]
  rw [step]
  have hr := matchBulletAt_rest_le c cs k v rest h
  rw [findallBulletF_fuel_irrel (cs.length + 1) (rest.length + 1) rest (by omega) (by omega)]
  rfl

theorem findallBullet_cons_none (c : Char) (cs : List Char)
    (h : matchBulletAt c cs = Option.none) :
    findallBullet (c :: cs) = findallBullet cs := by
  show findallBulletF (cs.length + 1 + 1) (c :: cs) = _
  have step : findallBulletF (cs.length + 1 + 1) (c :: cs) =
      findallBulletF (cs.length + 1) cs := by
    show (match matchBulletAt c cs with
      | some (k, v, rest) => (k, v) :: findallBulletF (cs.length + 1) rest
      | Option.none => findallBulletF (cs.length + 1) cs) = _
    rw [h]
  rw [step]
  rfl


/-! ## Bullet value coercion and the synthesized object -/

/-- `needle in haystack` (Python substring test). -/
def containsSeq : List Char → List Char → Bool
  | [], needle => needle.isEmpty
  | c :: cs, needle => startsWithChars (c :: cs) needle || containsSeq cs needle

/-- The guard deciding whether the bullet fallback is attempted at all:
`"- passed:" in text or "- valid:" in text or "- score:" in text`. -/
def hasBulletTrigger (cs : List Char) : Bool :=
  containsSeq cs ("- passed:".data) || containsSeq cs ("- valid:".data) ||
    containsSeq cs ("- score:".data)

def lowerChars (cs : List Char) : List Char := cs.map lowerCh

/-- `str.strip()` (ASCII whitespace). -/
def stripChars (cs : List Char) : List Char :=
  ((cs.dropWhile isReWs).reverse.dropWhile isReWs).reverse

/-- `value.replace('.', '', 1)`. -/
def removeFirstDot : List Char → List Char
  | [] => []
  | c :: cs => if c = '.' then cs else c :: removeFirstDot cs

/-- `str.isdigit()` (ASCII digits; non-empty). -/
def isDigitStr (cs : List Char) : Bool := !cs.isEmpty && cs.all isDigitCh

/-- `float(value)` for a value whose digit-and-at-most-one-dot shape was
established by the `isdigit` guard. -/
def floatOfBullet (cs : List Char) : ℚ :=
  let ir := spanP isDigitCh cs
  match ir.2 with
  | '.' :: fr =>
    let fd := spanP isDigitCh fr
    (digitsToNat ir.1 : ℚ) + (digitsToNat fd.1 : ℚ) / ((10 ^ fd.1.length : ℕ) : ℚ)
  | _ => (digitsToNat ir.1 : ℚ)

/-- Static coercion of one bullet value: the `true`/`false` literal test,
then the digit-and-dot test, else the stripped raw string. -/
def bulletVal (v : List Char) : PyVal :=
  if lowerChars v = "true".data then .bool true
  else if lowerChars v = "false".data then .bool false
  else if isDigitStr (removeFirstDot v) then .float (floatOfBullet v)
  else .str (String.mk (stripChars v))

/-- The object synthesized from all bullet matches (later keys overwrite
earlier ones, insertion-ordered). -/
def bulletObj (cs : List Char) : List (String × PyVal) :=
  (findallBullet cs).foldl (fun acc kv => upsert acc (String.mk kv.1) (bulletVal kv.2)) []

/-! ## The extractor `_parse_json_from_llm_output` -/

/-- The pattern loop of the extractor: each pattern in order; a match whose
capture fails to parse as JSON falls through to the next pattern. -/
def extractByPatterns (cs : List Char) : Option PyVal :=
  match (scanFence1 cs).bind jsonLoadsChars with
  | some v => some v
  | Option.none =>
    match (scanFence2 cs).bind jsonLoadsChars with
    | some v => some v
    | Option.none => (patternEnd cs).bind jsonLoadsChars

/-- Python truthiness of the `parsed_json` variable (`None` and the empty
dict are both falsy). -/
def pyFalsyOpt : Option PyVal → Bool
  | Option.none => true
  | some v => pyFalsy v

/-- Post-parse validation and normalization of the extractor (lines
292-331): the `valid` to `passed` alias, the required-key check, the type
checks (with the Python subtlety that `isinstance(x, (int, float))` accepts
booleans), and the coercion of `score` to float.  Raises are modelled as
`Except.error`. -/
def normalizeParsed : PyVal → Except String PyVal
  | .obj kvs =>
    let kvs2 :=
      if (lookupKey kvs "valid").isSome && (lookupKey kvs "passed").isNone then
        upsert kvs "passed" ((lookupKey kvs "valid").getD .none)
      else kvs
    if (lookupKey kvs2 "passed").isNone || (lookupKey kvs2 "score").isNone ||
        (lookupKey kvs2 "feedback").isNone then
      .error "VALIDATION ERROR: Parsed JSON is missing required keys."
    else if !isBoolVal ((lookupKey kvs2 "passed").getD .none) ||
        !isNumVal ((lookupKey kvs2 "score").getD .none) ||
        !isStrVal ((lookupKey kvs2 "feedback").getD .none) then
      .error "VALIDATION ERROR: Parsed JSON has type errors."
    else
      .ok (.obj (upsert kvs2 "score" (.float (pyFloat ((lookupKey kvs2 "score").getD .none)))))
  | _ => .error "VALIDATION ERROR: Parsed result is not a dictionary."

/-- `_parse_json_from_llm_output` on a character list: the empty-input
check, direct `json.loads`, the three extraction patterns, the bullet
fallback (attempted only when the text contains one of the three trigger
substrings and only a falsy value has been recovered so far), the
could-not-extract failure, and post-parse normalization. -/
def parseLlmChars (cs : List Char) : Except String PyVal :=
  if (stripChars cs).isEmpty then
    .error "VALIDATION ERROR: Received empty output for JSON parsing."
  else
    match jsonLoadsChars cs with
    | some v => normalizeParsed v
    | Option.none =>
      let p1 := extractByPatterns cs
      let p2 :=
        if pyFalsyOpt p1 && hasBulletTrigger cs then
          let bj := bulletObj cs
          if bj.isEmpty then p1 else some (.obj bj)
        else p1
      match p2 with
      | some v =>
        if pyFalsy v then
          .error "VALIDATION ERROR: Could not extract valid JSON from output."
        else normalizeParsed v
      | Option.none =>
        .error "VALIDATION ERROR: Could not extract valid JSON from output."

/-- The extractor on a Python string. -/
def parse_json_from_llm_output (text : String) : Except String PyVal :=
  parseLlmChars text.data

example : parse_json_from_llm_output
    "\x7b\"passed\": true, \"score\": 1, \"feedback\": \"ok\"\x7d"
    = .ok (.obj [("passed", .bool true), ("score", .float 1), ("feedback", .str "ok")]) := by
  rfl

example : parse_json_from_llm_output
    "\x60\x60\x60json\n\x7b\"passed\": false, \"score\": 0.5, \"feedback\": \"f\"\x7d\n\x60\x60\x60"
    = .ok (.obj [("passed", .bool false), ("score", .float (1/2)), ("feedback", .str "f")]) := by
  rfl

example : parse_json_from_llm_output "- passed: true\n- score: 0.85\n- feedback: good answer"
    = .ok (.obj [("passed", .bool true), ("score", .float (17/20)),
        ("feedback", .str "good answer")]) := by
  rfl

example : parse_json_from_llm_output
    "\x7b\"valid\": true, \"score\": 1, \"feedback\": \"y\"\x7d"
    = .ok (.obj [("valid", .bool true), ("score", .float 1), ("feedback", .str "y"),
        ("passed", .bool true)]) := by
  rfl

example : parse_json_from_llm_output "   " =
    .error "VALIDATION ERROR: Received empty output for JSON parsing." := by rfl

example : parse_json_from_llm_output "no structure here" =
    .error "VALIDATION ERROR: Could not extract valid JSON from output." := by rfl

/-! ## MetricsCollector (`metrics_collector.py`) -/

/-- A metrics dictionary (numeric fields; insertion-ordered). -/
abbrev MetricsDict := List (String × ℚ)

def mdLookup : MetricsDict → String → Option ℚ
  | [], _ => Option.none
  | (k, v) :: rest, key => if k = key then some v else mdLookup rest key

/-- `m.get(k, d)`. -/
def mdGet (md : MetricsDict) (k : String) (d : ℚ) : ℚ := (mdLookup md k).getD d

/-- `m[k] = v`. -/
def mdSet : MetricsDict → String → ℚ → MetricsDict
  | [], key, v => [(key, v)]
  | (k, w) :: rest, key, v =>
    if k = key then (k, v) :: rest else (k, w) :: mdSet rest key v

/-- Round half to even, as Python `round` does at exact ties. -/
def rndHE (q : ℚ) : ℤ :=
  let f := q.floor
  let r := q - (f : ℚ)
  if r < 1/2 then f
  else if (1:ℚ)/2 < r then f + 1
  else if f % 2 = 0 then f else f + 1

/-- Python `round(x, 2)` on the exact rational model of a float. -/
def round2 (q : ℚ) : ℚ := ((rndHE (q * 100) : ℤ) : ℚ) / 100

/-- `MetricsCollector.record_tokens`, acting on the collector state
`self.metrics_data`.  The `tokens_per_second` computation is guarded by the
*presence* of `latency_ms` (`'latency_ms' in self.metrics_data`) and by
`output_tokens > 0`; when a latency of exactly 0 is stored, the division
`output_tokens / (latency_ms / 1000.0)` raises `ZeroDivisionError`,
modelled as `Except.error`. -/
def recordedBase (md : MetricsDict) (input_tokens output_tokens : ℤ) : MetricsDict :=
  mdSet (mdSet (mdSet md "input_tokens" (input_tokens : ℚ))
    "output_tokens" (output_tokens : ℚ)) "total_tokens" ((input_tokens + output_tokens : ℤ) : ℚ)

def record_tokens (md : MetricsDict) (input_tokens output_tokens : ℤ) :
    Except String MetricsDict :=
  let md3 := recordedBase md input_tokens output_tokens
  if (mdLookup md3 "latency_ms").isSome && decide (0 < output_tokens) then
    let lat := mdGet md3 "latency_ms" 0
    if lat = 0 then .error "ZeroDivisionError: float division by zero"
    else .ok (mdSet md3 "tokens_per_second" (round2 ((output_tokens : ℚ) / (lat / 1000))))
  else .ok md3

/-- `MetricsCollector.merge_metrics`: sums the four counter fields across
the list (missing fields default to 0), then derives `tokens_per_second`
from the merged totals when both are positive.  An empty input yields an
empty dictionary. -/
def merge_metrics (ms : List MetricsDict) : MetricsDict :=
  if ms.isEmpty then []
  else
    let sums := ms.foldl
      (fun acc m =>
        (acc.1 + mdGet m "latency_ms" 0, acc.2.1 + mdGet m "input_tokens" 0,
         acc.2.2.1 + mdGet m "output_tokens" 0, acc.2.2.2 + mdGet m "total_tokens" 0))
      ((0 : ℚ), (0 : ℚ), (0 : ℚ), (0 : ℚ))
    let merged : MetricsDict :=
      [("latency_ms", sums.1), ("input_tokens", sums.2.1),
       ("output_tokens", sums.2.2.1), ("total_tokens", sums.2.2.2)]
    if 0 < sums.1 && 0 < sums.2.2.1 then
      merged ++ [("tokens_per_second", round2 (sums.2.2.1 / (sums.1 / 1000)))]
    else merged

example : merge_metrics [[("latency_ms", 100), ("output_tokens", 50)],
    [("latency_ms", 200), ("output_tokens", 50)]]
    = [("latency_ms", 300), ("input_tokens", 0), ("output_tokens", 100),
       ("total_tokens", 0), ("tokens_per_second", 333.33)] := by rfl

example : merge_metrics [] = [] := by rfl

/-! ## ConstraintEnforcer (`constraint_enforcer.py`) -/

/-- The constraint dictionary: each field is present iff the corresponding
key is in the Python dict. -/
structure ConstraintSpec where
  minWords : Option ℤ := Option.none
  maxWords : Option ℤ := Option.none
  prohibitedKeywords : Option (List String) := Option.none
  requiredTopic : Option String := Option.none
  format : Option String := Option.none

structure EnforcementResult where
  passed : Bool
  violations : List String
deriving Repr, DecidableEq

/-- Maximal `\w+` runs of the text (`re.findall(r'\b\w+\b', text)`). -/
def wordTokensAux : List Char → List Char → List (List Char)
  | acc, [] => if acc.isEmpty then [] else [acc.reverse]
  | acc, c :: cs =>
    if isWordChar c then wordTokensAux (c :: acc) cs
    else if acc.isEmpty then wordTokensAux [] cs
    else acc.reverse :: wordTokensAux [] cs

def wordTokens (cs : List Char) : List (List Char) := wordTokensAux [] cs

/-- `ConstraintEnforcer._count_words`. -/
def countWords (cs : List Char) : Nat := (wordTokens cs).length

/-- Word boundary `\b`: the two neighbouring positions differ in
word-character-ness (out of bounds counts as non-word). -/
def optWord : Option Char → Bool
  | some c => isWordChar c
  | Option.none => false

/-- An anchored match of `\b<keyword>\b` (case-insensitive) at the current
position, with `prev` the character before it. -/
def matchKeywordAt (prev : Option Char) (cs kw : List Char) : Bool :=
  (lowerChars (cs.take kw.length) == lowerChars kw) &&
  (optWord prev != optWord cs.head?) &&
  (optWord (cs.take kw.length).getLast? != optWord (cs.drop kw.length).head?)

def containsKeywordAux : Option Char → List Char → List Char → Bool
  | _, [], _ => false
  | prev, c :: cs, kw =>
    matchKeywordAt prev (c :: cs) kw || containsKeywordAux (some c) cs kw

/-- `ConstraintEnforcer._contains_keyword`: case-insensitive whole-word
search. -/
def containsKeyword (cs kw : List Char) : Bool :=
  containsKeywordAux Option.none cs kw

/-- `ConstraintEnforcer._topic_is_present`: at least `max(1, n // 2)` of the
topic word tokens occur (as substrings) in the lowercased content. -/
def topicPresent (content topic : List Char) : Bool :=
  let keywords := wordTokens (lowerChars topic)
  let textLower := lowerChars content
  let matched := (keywords.filter (fun k => containsSeq textLower k)).length
  decide (max 1 (keywords.length / 2) ≤ matched)

/-- The gross JSON-shape check of the format rule. -/
def formatJsonOk (cs : List Char) : Bool :=
  let t := stripChars cs
  (t.head? == some '{') && (t.getLast? == some '}')

/-- Appending a violation also clears `passed`, exactly as each violation
branch of the source does. -/
def addViolation (r : EnforcementResult) (msg : String) : EnforcementResult :=
  ⟨false, r.violations ++ [msg]⟩

/-- The word-count block of `enforce_constraints` (both bounds checked
independently; the count is only taken when either bound is present; an
absent `maxWords` defaults to `float('inf')` and never fires). -/
def wordCountStep (content : List Char) (c : ConstraintSpec) (r : EnforcementResult) :
    EnforcementResult :=
  if c.minWords.isSome || c.maxWords.isSome then
    let wc := countWords content
    let ra :=
      if (wc : ℤ) < c.minWords.getD 0 then
        addViolation r ("Word count " ++ toString wc ++ " below minimum " ++
          toString (c.minWords.getD 0))
      else r
    match c.maxWords with
    | some maxW =>
      if maxW < (wc : ℤ) then
        addViolation ra ("Word count " ++ toString wc ++ " exceeds maximum " ++ toString maxW)
      else ra
    | Option.none => ra
  else r

/-- The prohibited-keywords block: every keyword is checked, violations
accumulate (the source explicitly does not break). -/
def prohibitedStep (content : List Char) (c : ConstraintSpec) (r : EnforcementResult) :
    EnforcementResult :=
  match c.prohibitedKeywords with
  | some kws =>
    kws.foldl
      (fun r kw =>
        if containsKeyword content kw.data then
          addViolation r ("Prohibited keyword \x27" ++ kw ++ "\x27 found")
        else r) r
  | Option.none => r

/-- The required-topic block. -/
def topicStep (content : List Char) (c : ConstraintSpec) (r : EnforcementResult) :
    EnforcementResult :=
  match c.requiredTopic with
  | some topic =>
    if !topicPresent content topic.data then
      addViolation r
        ("Content does not appear to address required topic \x27" ++ topic ++ "\x27")
    else r
  | Option.none => r

/-- The format block (only the `json` format is checked). -/
def formatStep (content : List Char) (c : ConstraintSpec) (r : EnforcementResult) :
    EnforcementResult :=
  match c.format with
  | some fmt =>
    if String.mk (lowerChars fmt.data) = "json" && !formatJsonOk content then
      addViolation r "Content does not appear to be in required JSON format"
    else r
  | Option.none => r

/-- `ConstraintEnforcer.enforce_constraints`: the four rule blocks run in
sequence on the accumulating result, with no early exit. -/
def enforce_constraints (content : List Char) (constraints : ConstraintSpec) :
    EnforcementResult :=
  formatStep content constraints
    (topicStep content constraints
      (prohibitedStep content constraints
        (wordCountStep content constraints ⟨true, []⟩)))

example : enforce_constraints
    ("one two three four five six seven bad nine ten".data)
    { minWords := some 50, prohibitedKeywords := some ["bad"] }
    = ⟨false, ["Word count 10 below minimum 50", "Prohibited keyword \x27bad\x27 found"]⟩ := by
  rfl

/-! ## EvaluationEngine.validate_result (`evaluation_engine.py`) -/

/-- A validation stage dictionary from the configuration: each field is
present iff the corresponding key is in the dict. -/
structure Stage where
  id : Option String := Option.none
  template : Option String := Option.none
  priority : Option ℚ := Option.none
  scoringImpact : Option ℚ := Option.none
  abortOnFailure : Option Bool := Option.none

/-- `s.get("priority", 0)`. -/
def stagePriority (s : Stage) : ℚ := s.priority.getD 0

/-- Stable insertion keeping descending priority order: the inserted stage,
which precedes the list elements in declaration order, goes before the
first element of priority not larger than its own. -/
def insertByPriority (x : Stage) : List Stage → List Stage
  | [] => [x]
  | y :: ys =>
    if stagePriority y ≤ stagePriority x then x :: y :: ys
    else y :: insertByPriority x ys

/-- `sorted(validation_sequence, key=lambda s: s.get("priority", 0),
reverse=True)`: Python sorts are stable, and so is this insertion sort. -/
def sortStagesByPriority (l : List Stage) : List Stage :=
  l.foldr insertByPriority []

/-- The result dictionary of the injected model-execution function
(`edge_llm_execute_func`): the model-execution boundary of the spec,
section 6. -/
structure ExecOut where
  error : Option String := Option.none
  generated_text : String := ""
  metrics : MetricsDict := []

/-- Python truthiness of `d.get("error")`. -/
def optTruthy : Option String → Bool
  | some s => !s.isEmpty
  | Option.none => false

/-- A stage entry of `stageResults`. -/
structure StageOutput where
  stageId : String
  passed : PyVal
  score : PyVal
  feedback : PyVal
  metrics : MetricsDict

structure ValidationResult where
  isValid : Bool
  finalScore : ℚ
  stageResults : List StageOutput
  aggregateFeedback : String
  totalMetrics : MetricsDict

/-- Lookup on a parsed judgment (`parsed_stage_data.get(k, default)`). -/
def objGet (v : PyVal) (k : String) : Option PyVal :=
  match v with
  | .obj kvs => lookupKey kvs k
  | _ => Option.none

/-- One stage of the validation loop up to the parsed judgment: the
missing-template failure, template processing (an injected boundary),
the executor call, the reported-error failure, and extraction.  Any failure
aborts the whole validation (`Except.error`). -/
def runStage (processTemplate : String → Option String) (execFn : String → ExecOut)
    (stage : Stage) : Except String (PyVal × MetricsDict) :=
  match stage.template with
  | Option.none => .error "VALIDATION ERROR: Stage is missing template key."
  | some tname =>
    match processTemplate tname with
    | Option.none => .error "VALIDATION ERROR: Failed to process template."
    | some prompt =>
      let res := execFn prompt
      if optTruthy res.error then
        .error "VALIDATION ERROR: LLM-S execution error."
      else
        match parse_json_from_llm_output res.generated_text with
        | .error e => .error ("VALIDATION ERROR: Failed to execute validation stage: " ++ e)
        | .ok parsed => .ok (parsed, res.metrics)

/-- The body of the stage loop (steps 3a-3i of the source). -/
def validateLoop (pt : String → Option String) (execFn : String → ExecOut) :
    List Stage → ValidationResult → Except String ValidationResult
  | [], acc => .ok acc
  | stage :: rest, acc =>
    match runStage pt execFn stage with
    | .error e => .error e
    | .ok (parsed, stageMetrics) =>
      let passedV := (objGet parsed "passed").getD (.bool false)
      let scoreV := (objGet parsed "score").getD (.float 0)
      let feedbackV := (objGet parsed "feedback").getD (.str "")
      let sid := stage.id.getD "unknown_stage"
      let out : StageOutput := ⟨sid, passedV, scoreV, feedbackV, stageMetrics⟩
      let acc1 :=
        { acc with
          stageResults := acc.stageResults ++ [out]
          aggregateFeedback :=
            if pyTruthy feedbackV then
              acc.aggregateFeedback ++ "[" ++ sid ++ "] " ++ pyStr feedbackV ++ "\n"
            else acc.aggregateFeedback }
      let impact := stage.scoringImpact.getD 0
      if !pyTruthy passedV then
        let acc2 := { acc1 with isValid := false, finalScore := acc1.finalScore + 0 * impact }
        if stage.abortOnFailure.getD true then .ok acc2
        else validateLoop pt execFn rest acc2
      else
        validateLoop pt execFn rest
          { acc1 with finalScore := acc1.finalScore + pyNum scoreV * impact }

/-- `EvaluationEngine.validate_result`: empty sequences trivially pass;
otherwise the stages run in priority order and the per-stage metrics are
merged into the result. -/
def validate_result (pt : String → Option String) (execFn : String → ExecOut)
    (seq : List Stage) : Except String ValidationResult :=
  if seq.isEmpty then .ok ⟨true, 0, [], "", []⟩
  else
    match validateLoop pt execFn (sortStagesByPriority seq) ⟨true, 0, [], "", []⟩ with
    | .error e => .error e
    | .ok acc =>
      .ok { acc with
              totalMetrics := merge_metrics (acc.stageResults.map (fun so => so.metrics)) }

/-! ## RunnerCore: the four-run structure (`runner_core.py`)

The `_step_*` helpers call the model-execution, template and evaluation
boundaries; in this repository snapshot the callee methods of several of
those boundaries (`initialize_cloud_llm`, `execute_cloud_llm`,
`evaluate_using_cloud_llm`, `evaluate_using_edge_llm`,
`constraint_enforcer.validate`) are not present under the sources, so each
step is modelled as an oracle input carrying the result dictionary shape the
run functions read (`error`, generated text, `metrics`), per the contract of
section 6 of the spec.  The control flow of `_run_cloud_baseline`,
`_run_cloud_edgeprompt`, `_run_edge_baseline` and `_run_edge_edgeprompt` -
which checks are made, in which order, which failures abort the run, and the
per-run `try/except` that converts any step failure into a `failed` status
with an error message - is translated from the source. -/

/-- Result dictionary of one generation step. -/
structure StepOut where
  error : Option String := Option.none
  text : Option String := Option.none
  metrics : MetricsDict := []

/-- Result dictionary of the multi-stage-validation step, with the fields
the run functions read. -/
structure ValStepOut where
  error : Option String := Option.none
  isValid : Bool := true
  finalScore : ℚ := 0
  aggregateFeedback : String := ""
  metrics : Option MetricsDict := Option.none

/-- The record a run produces: terminal status, optional error message,
output, the appended step metrics and their merge. -/
structure RunOutcome where
  status : String
  error : Option String
  output : Option String
  totalMetrics : MetricsDict

/-- `run_results` produced by the `except` clause of a run: the status is
`failed` and the exception text is recorded. -/
def failedRun (msg : String) (mts : List MetricsDict) : RunOutcome :=
  ⟨"failed", some msg, Option.none,
    merge_metrics (mts.filter (fun m => !m.isEmpty))⟩

/-- A successfully completed run. -/
def completedRun (output : Option String) (mts : List MetricsDict) : RunOutcome :=
  ⟨"completed", Option.none, output,
    merge_metrics (mts.filter (fun m => !m.isEmpty))⟩

/-- Step oracles of a baseline run (runs 1 and 3). -/
structure BaselineSteps where
  question : StepOut := {}
  answer : StepOut := {}
  evaluation : StepOut := {}
  constraints : EnforcementResult := ⟨true, []⟩

/-- `_run_cloud_baseline` / `_run_edge_baseline`: question step (reported
error or empty text aborts), answer step (likewise), evaluation step (its
metrics are collected; its error is not checked by the source), constraint
step, then completion.  Any abort is caught at the run boundary and recorded
as a failed status. -/
def runBaseline (runLabel : String) (o : BaselineSteps) : RunOutcome :=
  let mts1 := [o.question.metrics]
  if optTruthy o.question.error then
    failedRun (runLabel ++ " Failed: Baseline Question Generation failed: " ++
      o.question.error.getD "") mts1
  else if (o.question.text.getD "").isEmpty then
    failedRun (runLabel ++ " Failed: Baseline question text is empty.") mts1
  else
    let mts2 := mts1 ++ [o.answer.metrics]
    if optTruthy o.answer.error then
      failedRun (runLabel ++ " Failed: Baseline Student Answer failed: " ++
        o.answer.error.getD "") mts2
    else if (o.answer.text.getD "").isEmpty then
      failedRun (runLabel ++ " Failed: Baseline student answer text is empty.") mts2
    else
      completedRun o.answer.text (mts2 ++ [o.evaluation.metrics])

/-- Step oracles of the cloud guided run (run 2). -/
structure GuidedSteps where
  sharedRequest : Bool := true
  teacher : StepOut := {}
  question : StepOut := {}
  answer : StepOut := {}
  validation : ValStepOut := {}
  constraints : EnforcementResult := ⟨true, []⟩
  review : StepOut := {}

/-- `_run_cloud_edgeprompt`: shared teacher request (a fresh teacher step
runs, and may abort the run, only when the shared one is absent), structured
question step, answer step, multi-stage validation step (a reported error
aborts), constraint step, and the teacher-review step executed exactly when
validation or constraints failed.  Any abort is caught at the run boundary
and recorded as a failed status. -/
def runCloudEdgeprompt (o : GuidedSteps) : RunOutcome :=
  let mts0 : List MetricsDict := if o.sharedRequest then [] else [o.teacher.metrics]
  if !o.sharedRequest && optTruthy o.teacher.error then
    failedRun ("Run 2 Failed: Teacher Request failed: " ++ o.teacher.error.getD "") mts0
  else
    let mts1 := mts0 ++ [o.question.metrics]
    if optTruthy o.question.error then
      failedRun ("Run 2 Failed: Generate Question failed: " ++ o.question.error.getD "") mts1
    else if (o.question.text.getD "").isEmpty then
      failedRun "Run 2 Failed: Generated question text is empty." mts1
    else
      let mts2 := mts1 ++ [o.answer.metrics]
      if optTruthy o.answer.error then
        failedRun ("Run 2 Failed: Student Answer failed: " ++ o.answer.error.getD "") mts2
      else if (o.answer.text.getD "").isEmpty then
        failedRun "Run 2 Failed: Generated answer text is empty." mts2
      else
        let mts3 := mts2 ++ [o.validation.metrics.getD []]
        if optTruthy o.validation.error then
          failedRun ("Run 2 Failed: Multi-stage Validation failed: " ++
            o.validation.error.getD "") mts3
        else
          let needsReview := !o.validation.isValid || !o.constraints.passed
          let mts4 := if needsReview then mts3 ++ [o.review.metrics] else mts3
          completedRun o.answer.text mts4

/-- Step oracles of the edge guided run (run 4; its teacher-request context
always resolves without a model call, and it has no review step). -/
structure GuidedEdgeSteps where
  question : StepOut := {}
  answer : StepOut := {}
  validation : ValStepOut := {}
  constraints : EnforcementResult := ⟨true, []⟩

/-- `_run_edge_edgeprompt`. -/
def runEdgeEdgeprompt (o : GuidedEdgeSteps) : RunOutcome :=
  let mts1 := [o.question.metrics]
  if optTruthy o.question.error then
    failedRun ("Run 4 Failed: Generate Question failed: " ++ o.question.error.getD "") mts1
  else if (o.question.text.getD "").isEmpty then
    failedRun "Run 4 Failed: Generated question text is empty." mts1
  else
    let mts2 := mts1 ++ [o.answer.metrics]
    if optTruthy o.answer.error then
      failedRun ("Run 4 Failed: Student Answer failed: " ++ o.answer.error.getD "") mts2
    else if (o.answer.text.getD "").isEmpty then
      failedRun "Run 4 Failed: Generated answer text is empty." mts2
    else
      let mts3 := mts2 ++ [o.validation.metrics.getD []]
      if optTruthy o.validation.error then
        failedRun ("Run 4 Failed: Multi-stage Validation failed: " ++
          o.validation.error.getD "") mts3
      else
        completedRun o.answer.text mts3

/-- The run record of one test-case times edge-model combination. -/
structure RunData where
  run_1 : RunOutcome
  run_2 : RunOutcome
  run_3 : RunOutcome
  run_4 : RunOutcome
  error : Option String

/-- Steps 9-12 of `run_test_suite` for one combination: the four runs
execute in order.  Each run function catches the exceptions of its own steps
and returns a record (with a `failed` status if anything was raised), so a
failure inside one run never propagates to a sibling run: the outer
`try/except` of the combination records no error. -/
def executeCombination (o1 : BaselineSteps) (o2 : GuidedSteps)
    (o3 : BaselineSteps) (o4 : GuidedEdgeSteps) : RunData :=
  ⟨runBaseline "Run 1" o1, runCloudEdgeprompt o2,
   runBaseline "Run 3" o3, runEdgeEdgeprompt o4, Option.none⟩

/-! ## Helper lemmas on dictionaries -/

theorem lookupKey_upsert_self (kvs : List (String × PyVal)) (k : String) (v : PyVal) :
    lookupKey (upsert kvs k v) k = some v := by
  induction kvs with
  | nil => simp [upsert, lookupKey]
  | cons kv rest ih =>
    by_cases h : kv.1 = k
    · simp [upsert, lookupKey, h]
    · simp [upsert, lookupKey, h, ih]

theorem lookupKey_upsert_ne (kvs : List (String × PyVal)) (k k2 : String) (v : PyVal)
    (h : k ≠ k2) : lookupKey (upsert kvs k v) k2 = lookupKey kvs k2 := by
  induction kvs with
  | nil => simp [upsert, lookupKey, h]
  | cons kv rest ih =>
    by_cases h2 : kv.1 = k
    · simp [upsert, lookupKey, h2, h]
    · simp [upsert, lookupKey, h2, ih]

/-! ## Claim C7: merge_metrics -/

/-- The four counter sums over a metrics list. -/
def mergedSum (ms : List MetricsDict) (k : String) : ℚ :=
  (ms.map (fun m => mdGet m k 0)).sum

theorem merge_metrics_fold (ms : List MetricsDict) (a b c d : ℚ) :
    ms.foldl
      (fun acc m =>
        (acc.1 + mdGet m "latency_ms" 0, acc.2.1 + mdGet m "input_tokens" 0,
         acc.2.2.1 + mdGet m "output_tokens" 0, acc.2.2.2 + mdGet m "total_tokens" 0))
      (a, b, c, d)
    = (a + mergedSum ms "latency_ms", b + mergedSum ms "input_tokens",
       c + mergedSum ms "output_tokens", d + mergedSum ms "total_tokens") := by
  induction ms generalizing a b c d with
  | nil => simp [mergedSum]
  | cons m rest ih => simp [mergedSum, ih, List.sum_cons] <;> ring_nf <;> simp [add_assoc]

/-- The merged dictionary, spelled out. -/
theorem merge_metrics_eq (ms : List MetricsDict) (h : ms ≠ []) :
    merge_metrics ms =
      [("latency_ms", mergedSum ms "latency_ms"),
       ("input_tokens", mergedSum ms "input_tokens"),
       ("output_tokens", mergedSum ms "output_tokens"),
       ("total_tokens", mergedSum ms "total_tokens")] ++
      (if 0 < mergedSum ms "latency_ms" && 0 < mergedSum ms "output_tokens" then
        [("tokens_per_second",
          round2 (mergedSum ms "output_tokens" / (mergedSum ms "latency_ms" / 1000)))]
      else []) := by
  unfold merge_metrics
  rw [if_neg (by simpa using h)]
  rw [merge_metrics_fold]
  simp
  split <;> simp

/-- Claim C7: `merge_metrics` over a non-empty list sums `latency_ms`,
`input_tokens`, `output_tokens` and `total_tokens` across the entries (a
missing field counts as 0) and recomputes `tokens_per_second` from the
merged totals; an empty list merges to an empty map; the metrics
`[{latency_ms: 100, output_tokens: 50}, {latency_ms: 200, output_tokens:
50}]` merge to `latency_ms = 300`, `output_tokens = 100`,
`tokens_per_second = 333.33`. -/
theorem merge_metrics_sums_and_derives_tps : (merge_metrics [] = []) ∧
    (∀ ms : List MetricsDict, ms ≠ [] →
      mdLookup (merge_metrics ms) "latency_ms" = some (mergedSum ms "latency_ms") ∧
      mdLookup (merge_metrics ms) "input_tokens" = some (mergedSum ms "input_tokens") ∧
      mdLookup (merge_metrics ms) "output_tokens" = some (mergedSum ms "output_tokens") ∧
      mdLookup (merge_metrics ms) "total_tokens" = some (mergedSum ms "total_tokens") ∧
      mdLookup (merge_metrics ms) "tokens_per_second" =
        (if 0 < mergedSum ms "latency_ms" && 0 < mergedSum ms "output_tokens" then
          some (round2 (mergedSum ms "output_tokens" / (mergedSum ms "latency_ms" / 1000)))
        else Option.none)) ∧
    (merge_metrics [[("latency_ms", 100), ("output_tokens", 50)],
        [("latency_ms", 200), ("output_tokens", 50)]]
      = [("latency_ms", 300), ("input_tokens", 0), ("output_tokens", 100),
         ("total_tokens", 0), ("tokens_per_second", 333.33)]) := by
  refine ⟨rfl, ?_, by rfl⟩
  intro ms h
  rw [merge_metrics_eq ms h]
  by_cases hc : (0 < mergedSum ms "latency_ms" && 0 < mergedSum ms "output_tokens") = true <;>
    simp [hc, mdLookup]

/-- Witness for C7 at the concrete metrics of the spec example. -/
theorem merge_metrics_sums_and_derives_tps_witness :
    mdLookup (merge_metrics [[("latency_ms", 100), ("output_tokens", 50)],
        [("latency_ms", 200), ("output_tokens", 50)]]) "tokens_per_second"
      = some 333.33 := by
  have h := merge_metrics_sums_and_derives_tps.2.1
    [[("latency_ms", 100), ("output_tokens", 50)], [("latency_ms", 200), ("output_tokens", 50)]]
    (by simp)
  rw [h.2.2.2.2]
  rw [if_pos (by rfl)]
  rfl

/-! ## Claim C8: the tokens_per_second guards -/

/-- Counterexample to claim C8: `record_tokens` guards the
`tokens_per_second` computation by the mere *presence* of `latency_ms`, not
by its positivity, so a stored latency of exactly 0 (as produced by
`stop_timer` for a sub-millisecond interval) with positive output tokens
raises `ZeroDivisionError` instead of leaving the field absent. -/
theorem record_tokens_zero_latency_divides_by_zero :
    record_tokens [("latency_ms", 0)] 5 10 =
      .error "ZeroDivisionError: float division by zero" := by rfl

/-- Claim C8 (amended): in `merge_metrics`, `tokens_per_second` is present
iff both the merged latency and the merged output tokens are positive; in
`record_tokens` the guard checks only that a `latency_ms` value is present
and that the output tokens are positive, computing the field whenever that
stored latency is also nonzero and raising `ZeroDivisionError` when it is
zero; when the guard fails the field is simply not written. -/
theorem tokens_per_second_guards :
    (∀ ms : List MetricsDict,
      (mdLookup (merge_metrics ms) "tokens_per_second").isSome = true ↔
        (ms ≠ [] ∧ 0 < mergedSum ms "latency_ms" ∧ 0 < mergedSum ms "output_tokens")) ∧
    (∀ (md : MetricsDict) (i o : ℤ),
      ((mdLookup (recordedBase md i o) "latency_ms").isNone = true ∨ o ≤ 0 →
        record_tokens md i o = .ok (recordedBase md i o)) ∧
      (∀ l : ℚ, mdLookup (recordedBase md i o) "latency_ms" = some l → 0 < o → l ≠ 0 →
        record_tokens md i o =
          .ok (mdSet (recordedBase md i o) "tokens_per_second"
            (round2 ((o : ℚ) / (l / 1000))))) ∧
      (mdLookup (recordedBase md i o) "latency_ms" = some 0 → 0 < o →
        record_tokens md i o = .error "ZeroDivisionError: float division by zero")) := by
  constructor
  · intro ms
    rcases eq_or_ne ms [] with h | h
    · subst h
      simp [merge_metrics, mdLookup]
    · rw [merge_metrics_eq ms h]
      by_cases hc : (0 < mergedSum ms "latency_ms" && 0 < mergedSum ms "output_tokens") = true
      · simp only [hc, if_true]
        simp only [Bool.and_eq_true, decide_eq_true_eq] at hc
        simp [mdLookup, hc, h]
      · simp only [hc, Bool.false_eq_true, if_false]
        constructor
        · intro hx
          exfalso
          revert hx
          simp [mdLookup]
        · rintro ⟨-, h2, h3⟩
          exact absurd (by simp [h2, h3]) hc
  · intro md i o
    refine ⟨?_, ?_, ?_⟩
    · intro h
      unfold record_tokens
      dsimp only
      split
      case isTrue hx =>
        exfalso
        rw [Bool.and_eq_true] at hx
        rcases h with h | h
        · rw [Option.isNone_iff_eq_none] at h
          rw [h] at hx
          exact absurd hx.1 (by simp)
        · exact absurd (of_decide_eq_true hx.2) (not_lt.mpr h)
      case isFalse => rfl
    · intro l hl ho hne
      unfold record_tokens
      dsimp only
      split
      case isFalse hx => exact absurd (by rw [hl]; simp [ho]) hx
      case isTrue =>
        have hg : mdGet (recordedBase md i o) "latency_ms" 0 = l := by
          rw [mdGet, hl]
          rfl
        rw [hg, if_neg hne]
    · intro hl ho
      unfold record_tokens
      dsimp only
      split
      case isFalse hx => exact absurd (by rw [hl]; simp [ho]) hx
      case isTrue =>
        have hg : mdGet (recordedBase md i o) "latency_ms" 0 = 0 := by
          rw [mdGet, hl]
          rfl
        rw [hg, if_pos rfl]

/-- Witness for C8 (amended): a positive stored latency yields the derived
field, a missing latency leaves it absent. -/
theorem tokens_per_second_guards_witness :
    record_tokens [("latency_ms", 300)] 0 100 =
      .ok [("latency_ms", 300), ("input_tokens", 0), ("output_tokens", 100),
           ("total_tokens", 100), ("tokens_per_second", 333.33)] ∧
    record_tokens [] 3 0 = .ok [("input_tokens", 3), ("output_tokens", 0),
      ("total_tokens", 3)] := by
  constructor
  · have h := (tokens_per_second_guards.2 [("latency_ms", 300)] 0 100).2.1 300 (by rfl)
      (by decide) (by decide)
    rw [h]
    rfl
  · have h := (tokens_per_second_guards.2 [] 3 0).1 (Or.inr (by decide))
    rw [h]
    rfl

/-! ## Claim C3: stage ordering -/

theorem insertByPriority_mem (x : Stage) (l : List Stage) (a : Stage) :
    a ∈ insertByPriority x l ↔ a = x ∨ a ∈ l := by
  induction l with
  | nil => simp [insertByPriority]
  | cons y ys ih =>
    by_cases h : stagePriority y ≤ stagePriority x
    · simp [insertByPriority, h]
    · simp only [insertByPriority, h, if_false, List.mem_cons, ih]
      tauto

theorem insertByPriority_pairwise (x : Stage) (l : List Stage)
    (h : l.Pairwise (fun a b => stagePriority b ≤ stagePriority a)) :
    (insertByPriority x l).Pairwise (fun a b => stagePriority b ≤ stagePriority a) := by
  induction l with
  | nil => simp [insertByPriority]
  | cons y ys ih =>
    rw [List.pairwise_cons] at h
    by_cases hy : stagePriority y ≤ stagePriority x
    · rw [insertByPriority, if_pos hy, List.pairwise_cons]
      refine ⟨?_, List.Pairwise.cons h.1 h.2⟩
      intro z hz
      rcases List.mem_cons.mp hz with rfl | hz
      · exact hy
      · exact le_trans (h.1 z hz) hy
    · rw [insertByPriority, if_neg hy, List.pairwise_cons]
      refine ⟨?_, ih h.2⟩
      intro z hz
      rcases (insertByPriority_mem x ys z).mp hz with rfl | hz
      · exact le_of_lt (lt_of_not_le hy)
      · exact h.1 z hz

theorem insertByPriority_filter (x : Stage) (l : List Stage) (p : ℚ) :
    (insertByPriority x l).filter (fun s => decide (stagePriority s = p)) =
      if stagePriority x = p then
        x :: l.filter (fun s => decide (stagePriority s = p))
      else l.filter (fun s => decide (stagePriority s = p)) := by
  induction l with
  | nil =>
    by_cases hx : stagePriority x = p <;> simp [insertByPriority, List.filter, hx]
  | cons y ys ih =>
    by_cases hy : stagePriority y ≤ stagePriority x
    · rw [insertByPriority, if_pos hy]
      by_cases hx : stagePriority x = p <;> simp [List.filter, hx]
    · rw [insertByPriority, if_neg hy]
      have hxy : stagePriority x < stagePriority y := lt_of_not_le hy
      by_cases hyp : stagePriority y = p
      · by_cases hx : stagePriority x = p
        · rw [hx, hyp] at hxy
          exact absurd hxy (lt_irrefl p)
        · simp [List.filter, hyp, hx, ih]
      · by_cases hx : stagePriority x = p <;> simp [List.filter, hyp, hx, ih]

def stageA : Stage := { id := some "A", priority := some 1 }
def stageB : Stage := { id := some "B", priority := some 5 }
def stageC : Stage := { id := some "C", priority := some 1 }

/-- Claim C3: `validate_result` executes the stages of a validation
sequence in descending order of the `priority` field (default 0), with ties
keeping their declared relative order (stable sort), as witnessed by the
sort used on the sequence: it is pairwise descending, it preserves, for each
priority value, the declared sublist of stages of that priority, and on the
declared stages A (priority 1), B (priority 5), C (priority 1) it yields the
order B, A, C. -/
theorem sortStages_descending_stable :
    (∀ l : List Stage,
      (sortStagesByPriority l).Pairwise (fun a b => stagePriority b ≤ stagePriority a)) ∧
    (∀ (l : List Stage) (p : ℚ),
      (sortStagesByPriority l).filter (fun s => decide (stagePriority s = p)) =
        l.filter (fun s => decide (stagePriority s = p))) ∧
    (sortStagesByPriority [stageA, stageB, stageC] = [stageB, stageA, stageC]) := by
  refine ⟨?_, ?_, ?_⟩
  · intro l
    induction l with
    | nil => simp [sortStagesByPriority]
    | cons x xs ih => exact insertByPriority_pairwise x _ ih
  · intro l p
    induction l with
    | nil => rfl
    | cons x xs ih =>
      show (insertByPriority x (sortStagesByPriority xs)).filter _ = _
      rw [insertByPriority_filter]
      by_cases hx : stagePriority x = p <;> simp [List.filter, hx, ih]
  · rfl

/-! ## Claim C9: per-run failure isolation -/

/-- Claim C9: when a step of one of the four runs reports an error - here
the generation step of the guided cloud run, with a shared teacher request
in place - that run is recorded with a `failed` status and an error message,
the combination record carries no error of its own, and the sibling runs are
still executed: they are exactly the runs of their own step oracles, and the
sibling edge baseline completes whenever its own steps succeed. -/
theorem run_failure_is_isolated (o1 : BaselineSteps) (o2 : GuidedSteps)
    (o3 : BaselineSteps) (o4 : GuidedEdgeSteps) (e : String)
    (hshared : o2.sharedRequest = true)
    (he : o2.question.error = some e) (hne : e ≠ "") :
    (executeCombination o1 o2 o3 o4).run_2.status = "failed" ∧
    (executeCombination o1 o2 o3 o4).run_2.error =
      some ("Run 2 Failed: Generate Question failed: " ++ e) ∧
    (executeCombination o1 o2 o3 o4).error = Option.none ∧
    (executeCombination o1 o2 o3 o4).run_1 = runBaseline "Run 1" o1 ∧
    (executeCombination o1 o2 o3 o4).run_3 = runBaseline "Run 3" o3 ∧
    (executeCombination o1 o2 o3 o4).run_4 = runEdgeEdgeprompt o4 ∧
    (optTruthy o3.question.error = false → (o3.question.text.getD "").isEmpty = false →
      optTruthy o3.answer.error = false → (o3.answer.text.getD "").isEmpty = false →
      (executeCombination o1 o2 o3 o4).run_3.status = "completed") := by
  have htr : optTruthy o2.question.error = true := by
    rw [he]
    simp only [optTruthy, Bool.not_eq_true']
    by_cases h : e.isEmpty = true
    · exact absurd ((String.isEmpty_iff e).mp h) hne
    · simpa using h
  have hrun2 : runCloudEdgeprompt o2 =
      failedRun ("Run 2 Failed: Generate Question failed: " ++ e)
        [o2.question.metrics] := by
    unfold runCloudEdgeprompt
    rw [hshared]
    simp only [Bool.not_true, Bool.false_and, Bool.false_eq_true, if_false]
    rw [if_pos htr, he]
    rfl
  refine ⟨?_, ?_, rfl, rfl, rfl, rfl, ?_⟩
  · show (runCloudEdgeprompt o2).status = "failed"
    rw [hrun2]
    rfl
  · show (runCloudEdgeprompt o2).error = _
    rw [hrun2]
    rfl
  · intro h1 h2 h3 h4
    show (runBaseline "Run 3" o3).status = "completed"
    unfold runBaseline
    rw [if_neg (by simp [h1]), if_neg (by simp [h2]), if_neg (by simp [h3]),
      if_neg (by simp [h4])]
    rfl

/-- Witness for C9: a concrete model-execution error in the guided run and
concrete successful baseline steps. -/
theorem run_failure_is_isolated_witness :
    (executeCombination {} { question := { error := some "model overloaded" } }
      { question := { text := some "Q" }, answer := { text := some "A" } } {}).run_2.status
      = "failed" ∧
    (executeCombination {} { question := { error := some "model overloaded" } }
      { question := { text := some "Q" }, answer := { text := some "A" } } {}).run_3.status
      = "completed" := by
  have h := run_failure_is_isolated {} { question := { error := some "model overloaded" } }
    { question := { text := some "Q" }, answer := { text := some "A" } } {}
    "model overloaded" rfl rfl (by decide)
  exact ⟨h.1, h.2.2.2.2.2.2 rfl rfl rfl rfl⟩

/-! ## Claim C10: the bullet-fallback trigger -/

/-- Claim C10: the bullet fallback runs only when direct and
pattern-based extraction have failed and the raw text contains one of the
exact substrings `"- passed:"`, `"- valid:"`, `"- score:"`; when those
strategies fail and no trigger substring occurs, extraction raises, even on
a text such as `"-  passed: true\n-  score: 1.0\n-  feedback: ok"` (two
spaces after each dash) all of whose lines match the bullet pattern and
whose bullets would express all three required keys. -/
theorem bullet_fallback_needs_trigger :
    (∀ cs : List Char, (stripChars cs).isEmpty = false →
      jsonLoadsChars cs = Option.none →
      pyFalsyOpt (extractByPatterns cs) = true →
      hasBulletTrigger cs = false →
      parseLlmChars cs =
        .error "VALIDATION ERROR: Could not extract valid JSON from output.") ∧
    (parse_json_from_llm_output "-  passed: true\n-  score: 1.0\n-  feedback: ok" =
      .error "VALIDATION ERROR: Could not extract valid JSON from output." ∧
     hasBulletTrigger ("-  passed: true\n-  score: 1.0\n-  feedback: ok".data) = false ∧
     bulletObj ("-  passed: true\n-  score: 1.0\n-  feedback: ok".data) =
       [("passed", .bool true), ("score", .float 1), ("feedback", .str "ok")]) := by
  refine ⟨?_, by rfl, by rfl, by rfl⟩
  intro cs hne hdirect hpat htrig
  unfold parseLlmChars
  rw [if_neg (by simp [hne]), hdirect]
  simp only [htrig, Bool.and_false, Bool.false_eq_true, if_false]
  rcases hp : extractByPatterns cs with _ | v
  · rfl
  · rw [hp] at hpat
    simp only [pyFalsyOpt] at hpat
    simp [hpat]

/-- Witness for C10 at the two-space bullet text. -/
theorem bullet_fallback_needs_trigger_witness :
    parseLlmChars ("-  passed: true\n-  score: 1.0\n-  feedback: ok".data) =
      .error "VALIDATION ERROR: Could not extract valid JSON from output." :=
  bullet_fallback_needs_trigger.1 ("-  passed: true\n-  score: 1.0\n-  feedback: ok".data)
    (by rfl) (by rfl) (by rfl) (by rfl)

/-! ## Claim C6: independent constraint rules -/

/-- The violations the word-count rule produces on its own. -/
def ruleWordViolations (content : List Char) (c : ConstraintSpec) : List String :=
  if c.minWords.isSome || c.maxWords.isSome then
    (if (countWords content : ℤ) < c.minWords.getD 0 then
      ["Word count " ++ toString (countWords content) ++ " below minimum " ++
        toString (c.minWords.getD 0)]
    else []) ++
    (match c.maxWords with
     | some maxW =>
       if maxW < (countWords content : ℤ) then
         ["Word count " ++ toString (countWords content) ++ " exceeds maximum " ++
           toString maxW]
       else []
     | Option.none => [])
  else []

/-- The violations the prohibited-keywords rule produces on its own: one
entry per matched keyword. -/
def ruleProhibitedViolations (content : List Char) (c : ConstraintSpec) : List String :=
  match c.prohibitedKeywords with
  | some kws =>
    (kws.filter (fun kw => containsKeyword content kw.data)).map
      (fun kw => "Prohibited keyword \x27" ++ kw ++ "\x27 found")
  | Option.none => []

/-- The violation the required-topic rule produces on its own. -/
def ruleTopicViolations (content : List Char) (c : ConstraintSpec) : List String :=
  match c.requiredTopic with
  | some topic =>
    if !topicPresent content topic.data then
      ["Content does not appear to address required topic \x27" ++ topic ++ "\x27"]
    else []
  | Option.none => []

/-- The violation the format rule produces on its own. -/
def ruleFormatViolations (content : List Char) (c : ConstraintSpec) : List String :=
  match c.format with
  | some fmt =>
    if String.mk (lowerChars fmt.data) = "json" && !formatJsonOk content then
      ["Content does not appear to be in required JSON format"]
    else []
  | Option.none => []

theorem wordCountStep_eq (content : List Char) (c : ConstraintSpec) (r : EnforcementResult) :
    wordCountStep content c r =
      ⟨r.passed && (ruleWordViolations content c).isEmpty,
       r.violations ++ ruleWordViolations content c⟩ := by
  unfold wordCountStep ruleWordViolations
  by_cases h1 : (c.minWords.isSome || c.maxWords.isSome) = true
  · simp only [h1, if_true]
    by_cases h2 : ((countWords content : ℤ) < c.minWords.getD 0)
    · rcases hm : c.maxWords with _ | maxW
      · simp [h2, addViolation]
      · by_cases h3 : (maxW < (countWords content : ℤ)) <;> simp [h2, h3, addViolation]
    · rcases hm : c.maxWords with _ | maxW
      · simp [h2, addViolation]
      · by_cases h3 : (maxW < (countWords content : ℤ)) <;> simp [h2, h3, addViolation]
  · simp [h1]

theorem prohibitedFold_eq (content : List Char) (kws : List String) (r : EnforcementResult) :
    kws.foldl
      (fun r kw =>
        if containsKeyword content kw.data then
          addViolation r ("Prohibited keyword \x27" ++ kw ++ "\x27 found")
        else r) r =
      ⟨r.passed && (kws.filter (fun kw => containsKeyword content kw.data)).isEmpty,
       r.violations ++ (kws.filter (fun kw => containsKeyword content kw.data)).map
         (fun kw => "Prohibited keyword \x27" ++ kw ++ "\x27 found")⟩ := by
  induction kws generalizing r with
  | nil => simp
  | cons kw rest ih =>
    by_cases h : containsKeyword content kw.data = true
    · simp only [List.foldl_cons, h, if_true]
      rw [ih]
      simp [addViolation, h]
    · simp only [List.foldl_cons, h, Bool.false_eq_true, if_false]
      rw [ih]
      simp [h]

theorem prohibitedStep_eq (content : List Char) (c : ConstraintSpec) (r : EnforcementResult) :
    prohibitedStep content c r =
      ⟨r.passed && (ruleProhibitedViolations content c).isEmpty,
       r.violations ++ ruleProhibitedViolations content c⟩ := by
  unfold prohibitedStep ruleProhibitedViolations
  rcases c.prohibitedKeywords with _ | kws
  · simp
  · dsimp only
    rw [prohibitedFold_eq]
    have : ∀ l : List String,
        (l.map (fun kw => "Prohibited keyword \x27" ++ kw ++ "\x27 found")).isEmpty
          = l.isEmpty := by
      intro l
      rcases l with _ | ⟨a, rest⟩ <;> rfl
    rw [this]

theorem topicStep_eq (content : List Char) (c : ConstraintSpec) (r : EnforcementResult) :
    topicStep content c r =
      ⟨r.passed && (ruleTopicViolations content c).isEmpty,
       r.violations ++ ruleTopicViolations content c⟩ := by
  unfold topicStep ruleTopicViolations
  rcases c.requiredTopic with _ | topic
  · simp
  · by_cases h : topicPresent content topic.data = true <;> simp [h, addViolation]

theorem formatStep_eq (content : List Char) (c : ConstraintSpec) (r : EnforcementResult) :
    formatStep content c r =
      ⟨r.passed && (ruleFormatViolations content c).isEmpty,
       r.violations ++ ruleFormatViolations content c⟩ := by
  unfold formatStep ruleFormatViolations
  rcases c.format with _ | fmt
  · simp
  · by_cases h : (String.mk (lowerChars fmt.data) = "json" && !formatJsonOk content) = true <;>
      simp [h, addViolation]

/-- Claim C6: every applicable constraint rule is evaluated independently -
the violations of one invocation are exactly the concatenation of the
violations each rule produces on its own, so an earlier violation never
suppresses a later rule - and `passed` holds iff the violations list is
empty; content of 10 words checked against `{minWords: 50}` that also
contains one prohibited keyword yields exactly the two violations. -/
theorem enforce_constraints_collects_all_violations :
    (∀ (content : List Char) (c : ConstraintSpec),
      (enforce_constraints content c).violations =
        ruleWordViolations content c ++ ruleProhibitedViolations content c ++
        ruleTopicViolations content c ++ ruleFormatViolations content c ∧
      ((enforce_constraints content c).passed = true ↔
        (enforce_constraints content c).violations = [])) ∧
    (enforce_constraints ("one two three four five six seven bad nine ten".data)
        { minWords := some 50, prohibitedKeywords := some ["bad"] } =
      ⟨false, ["Word count 10 below minimum 50", "Prohibited keyword \x27bad\x27 found"]⟩ ∧
     (enforce_constraints ("one two three four five six seven bad nine ten".data)
        { minWords := some 50, prohibitedKeywords := some ["bad"] }).violations.length = 2) := by
  refine ⟨?_, by rfl, by rfl⟩
  intro content c
  unfold enforce_constraints
  rw [wordCountStep_eq, prohibitedStep_eq, topicStep_eq, formatStep_eq]
  constructor
  · simp
  · simp only [List.nil_append, List.append_assoc, List.isEmpty_iff, List.append_eq_nil,
      Bool.true_and, Bool.and_eq_true]
    tauto

/-! ## Claims C4 and C5: failure, abort and the weighted score -/

/-- What one executed stage adds to `finalScore`: its weighted score when it
passed, nothing when it failed. -/
def scoreContribution (st : Stage) (so : StageOutput) : ℚ :=
  if pyTruthy so.passed then pyNum so.score * st.scoringImpact.getD 0 else 0

/-- Characterization of the validation loop: it executes a prefix of the
stage list, appending one stage result per executed stage; the final score
accumulates exactly the per-stage contributions; validity survives iff every
executed stage passed; each result entry carries the id of its stage, and a
failing entry whose stage aborts (the default) is the last one. -/
theorem validateLoop_char (pt : String → Option String) (ex : String → ExecOut) :
    ∀ (stages : List Stage) (acc res : ValidationResult),
      validateLoop pt ex stages acc = .ok res →
      ∃ news : List StageOutput,
        res.stageResults = acc.stageResults ++ news ∧
        news.length ≤ stages.length ∧
        res.finalScore = acc.finalScore +
          ((stages.zip news).map (fun p => scoreContribution p.1 p.2)).sum ∧
        res.isValid = (acc.isValid && news.all (fun so => pyTruthy so.passed)) ∧
        (∀ i so, news.get? i = some so →
          ∀ st, stages.get? i = some st →
            so.stageId = st.id.getD "unknown_stage" ∧
            (pyTruthy so.passed = false → st.abortOnFailure.getD true = true →
              news.length = i + 1)) := by
  intro stages
  induction stages with
  | nil =>
    intro acc res h
    simp only [validateLoop, Except.ok.injEq] at h
    subst h
    exact ⟨[], by simp, by simp, by simp, by simp, by simp⟩
  | cons stage rest ih =>
    intro acc res h
    rw [validateLoop] at h
    rcases hrs : runStage pt ex stage with e | pm
    · rw [hrs] at h
      exact absurd h (by simp)
    · rcases pm with ⟨parsed, sm⟩
      rw [hrs] at h
      dsimp only at h
      by_cases hp : pyTruthy ((objGet parsed "passed").getD (PyVal.bool false)) = true
      · rw [if_neg (by simp [hp])] at h
        rcases ih _ _ h with ⟨news2, hsr, hlen, hfs, hiv, hidx⟩
        refine ⟨⟨stage.id.getD "unknown_stage",
          (objGet parsed "passed").getD (PyVal.bool false),
          (objGet parsed "score").getD (PyVal.float 0),
          (objGet parsed "feedback").getD (PyVal.str ""), sm⟩ :: news2, ?_, ?_, ?_, ?_, ?_⟩
        · rw [hsr]
          simp
        · simp only [List.length_cons, List.length_cons]
          omega
        · rw [hfs]
          simp only [List.zip_cons_cons, List.map_cons, List.sum_cons, scoreContribution]
          rw [if_pos hp]
          ring
        · rw [hiv]
          simp only [List.all_cons, hp, Bool.true_and]
        · intro i so hso st hst
          rcases i with _ | i
          · simp only [List.get?] at hso hst
            cases hso
            cases hst
            refine ⟨rfl, ?_⟩
            intro hfalse
            exact absurd hp (by simp [hfalse])
          · simp only [List.get?] at hso hst
            rcases hidx i so hso st hst with ⟨hid, habort⟩
            refine ⟨hid, ?_⟩
            intro h1 h2
            simp only [List.length_cons, habort h1 h2]
      · rw [if_pos (by simp [hp])] at h
        by_cases ha : stage.abortOnFailure.getD true = true
        · rw [if_pos ha, Except.ok.injEq] at h
          subst h
          refine ⟨[⟨stage.id.getD "unknown_stage",
            (objGet parsed "passed").getD (PyVal.bool false),
            (objGet parsed "score").getD (PyVal.float 0),
            (objGet parsed "feedback").getD (PyVal.str ""), sm⟩], ?_, ?_, ?_, ?_, ?_⟩
          · simp
          · simp
          · simp only [List.zip_cons_cons, List.map_cons, List.sum_cons, scoreContribution]
            rw [if_neg hp]
            simp only [List.zip_nil_right, List.map_nil, List.sum_nil]
            ring
          · simp [hp]
          · intro i so hso st hst
            rcases i with _ | i
            · simp only [List.get?] at hso hst
              cases hso
              cases hst
              exact ⟨rfl, fun _ _ => rfl⟩
            · simp at hso
        · rw [if_neg ha] at h
          rcases ih _ _ h with ⟨news2, hsr, hlen, hfs, hiv, hidx⟩
          refine ⟨⟨stage.id.getD "unknown_stage",
            (objGet parsed "passed").getD (PyVal.bool false),
            (objGet parsed "score").getD (PyVal.float 0),
            (objGet parsed "feedback").getD (PyVal.str ""), sm⟩ :: news2, ?_, ?_, ?_, ?_, ?_⟩
          · rw [hsr]
            simp
          · simp only [List.length_cons, List.length_cons]
            omega
          · rw [hfs]
            simp only [List.zip_cons_cons, List.map_cons, List.sum_cons, scoreContribution]
            rw [if_neg hp]
            ring
          · rw [hiv]
            simp [hp]
          · intro i so hso st hst
            rcases i with _ | i
            · simp only [List.get?] at hso hst
              cases hso
              cases hst
              exact ⟨rfl, fun _ h2 => absurd h2 ha⟩
            · simp only [List.get?] at hso hst
              rcases hidx i so hso st hst with ⟨hid, habort⟩
              refine ⟨hid, ?_⟩
              intro h1 h2
              simp only [List.length_cons, habort h1 h2]

theorem insertByPriority_length (x : Stage) (l : List Stage) :
    (insertByPriority x l).length = l.length + 1 := by
  induction l with
  | nil => rfl
  | cons y ys ih =>
    by_cases hy : stagePriority y ≤ stagePriority x <;> simp [insertByPriority, hy, ih]

theorem sortStages_length (l : List Stage) :
    (sortStagesByPriority l).length = l.length := by
  induction l with
  | nil => rfl
  | cons x xs ih =>
    show (insertByPriority x (sortStagesByPriority xs)).length = xs.length + 1
    rw [insertByPriority_length, ih]

/-- Bridge from `validate_result` to the loop characterization. -/
theorem validate_result_char (pt : String → Option String) (ex : String → ExecOut)
    (seq : List Stage) (res : ValidationResult)
    (h : validate_result pt ex seq = .ok res) :
    (seq = [] ∧ res = ⟨true, 0, [], "", []⟩) ∨
    (res.stageResults.length ≤ seq.length ∧
      res.finalScore = (((sortStagesByPriority seq).zip res.stageResults).map
        (fun p => scoreContribution p.1 p.2)).sum ∧
      res.isValid = res.stageResults.all (fun so => pyTruthy so.passed) ∧
      (∀ i so, res.stageResults.get? i = some so →
        ∀ st, (sortStagesByPriority seq).get? i = some st →
          so.stageId = st.id.getD "unknown_stage" ∧
          (pyTruthy so.passed = false → st.abortOnFailure.getD true = true →
            res.stageResults.length = i + 1))) := by
  unfold validate_result at h
  by_cases hseq : seq.isEmpty = true
  · rw [if_pos hseq, Except.ok.injEq] at h
    exact Or.inl ⟨List.isEmpty_iff.mp hseq, h.symm⟩
  · rw [if_neg hseq] at h
    rcases hloop : validateLoop pt ex (sortStagesByPriority seq) ⟨true, 0, [], "", []⟩
      with e | acc
    · rw [hloop] at h
      exact absurd h (by simp)
    · rw [hloop, Except.ok.injEq] at h
      subst h
      rcases validateLoop_char pt ex _ _ _ hloop with ⟨news, hsr, hlen, hfs, hiv, hidx⟩
      simp only [List.nil_append] at hsr
      have hsortlen : (sortStagesByPriority seq).length = seq.length :=
        sortStages_length seq
      refine Or.inr ⟨?_, ?_, ?_, ?_⟩
      · show acc.stageResults.length ≤ seq.length
        rw [hsr, ← hsortlen]
        exact hlen
      · show acc.finalScore = _
        rw [hfs, hsr]
        simp
      · show acc.isValid = _
        rw [hiv, hsr]
        simp
      · intro i so hso st hst
        rw [hsr] at hso
        rcases hidx i so hso st hst with ⟨hid, habort⟩
        exact ⟨hid, fun h1 h2 => by rw [hsr, habort h1 h2]⟩

/-- Claim C4: whenever an executed stage of a validation run has a failing
judgment, the overall result is invalid, the final score is the sum of the
per-stage contributions (to which the failing stage contributes
`0 * scoringImpact`), and when the failing stage has its abort-on-failure
flag set or absent (the default is to abort) it is the last executed stage,
so no stage later in the sorted order runs. -/
theorem failed_stage_invalidates_and_aborts (pt : String → Option String)
    (ex : String → ExecOut) (seq : List Stage) (res : ValidationResult)
    (h : validate_result pt ex seq = .ok res) (i : ℕ) (so : StageOutput)
    (hso : res.stageResults.get? i = some so)
    (hfail : pyTruthy so.passed = false) :
    res.isValid = false ∧
    res.finalScore = (((sortStagesByPriority seq).zip res.stageResults).map
      (fun p => scoreContribution p.1 p.2)).sum ∧
    (∀ st, (sortStagesByPriority seq).get? i = some st →
      st.abortOnFailure.getD true = true →
      res.stageResults.length = i + 1) := by
  rcases validate_result_char pt ex seq res h with ⟨-, hres⟩ | ⟨-, hfs, hiv, hidx⟩
  · subst hres
    exact absurd hso (by simp)
  · have hall : res.stageResults.all (fun so => pyTruthy so.passed) = false := by
      by_cases hb : res.stageResults.all (fun so => pyTruthy so.passed) = true
      · have hmem : so ∈ res.stageResults := List.get?_mem hso
        exact absurd (List.all_eq_true.mp hb so hmem) (by simp [hfail])
      · simpa using hb
    refine ⟨by rw [hiv, hall], hfs, ?_⟩
    intro st hst habort
    exact ((hidx i so hso st hst).2 hfail habort)

/-- Claim C5: the final score of a validation run is exactly the sum, over
the executed stages, of `score * scoringImpact` for the passing stages
(scoringImpact defaulting to 0) and nothing for failing ones, with no
clamping; for two passing stages with impacts 0.6 and 0.4 and scores 1.0
and 0.5 the final score is 0.8. -/
theorem final_score_weighted_sum (pt : String → Option String)
    (ex : String → ExecOut) (seq : List Stage) (res : ValidationResult)
    (h : validate_result pt ex seq = .ok res) :
    res.finalScore = (((sortStagesByPriority seq).zip res.stageResults).map
      (fun p => scoreContribution p.1 p.2)).sum := by
  rcases validate_result_char pt ex seq res h with ⟨-, hres⟩ | ⟨-, hfs, -, -⟩
  · subst hres
    simp
  · exact hfs

/-! Concrete inputs for the C4 and C5 witnesses. -/

/-- Template processing oracle: the template name is the prompt. -/
def idTemplate : String → Option String := fun t => some t

/-- Executor oracle for C5: both stages pass, with scores 1.0 and 0.5. -/
def c5exec : String → ExecOut := fun prompt =>
  if prompt = "t1" then
    { generated_text := "\x7b\"passed\": true, \"score\": 1.0, \"feedback\": \"\"\x7d" }
  else
    { generated_text := "\x7b\"passed\": true, \"score\": 0.5, \"feedback\": \"\"\x7d" }

def c5stage1 : Stage :=
  { id := some "s1", template := some "t1", priority := some 10, scoringImpact := some 0.6 }

def c5stage2 : Stage :=
  { id := some "s2", template := some "t2", priority := some 5, scoringImpact := some 0.4 }

def c5res : ValidationResult :=
  match validate_result idTemplate c5exec [c5stage1, c5stage2] with
  | .ok r => r
  | .error _ => ⟨true, 0, [], "", []⟩

/-- Witness for C5: on the spec example the sum evaluates to 0.8. -/
theorem final_score_weighted_sum_witness :
    c5res.finalScore = (((sortStagesByPriority [c5stage1, c5stage2]).zip
      c5res.stageResults).map (fun p => scoreContribution p.1 p.2)).sum ∧
    c5res.finalScore = 0.8 :=
  ⟨final_score_weighted_sum idTemplate c5exec [c5stage1, c5stage2] c5res (by rfl),
   by rfl⟩

/-- Executor oracle for C4: the priority-10 stage fails, the priority-5
stage would pass. -/
def c4exec : String → ExecOut := fun prompt =>
  if prompt = "t1" then
    { generated_text := "\x7b\"passed\": false, \"score\": 0.0, \"feedback\": \"no\"\x7d" }
  else
    { generated_text := "\x7b\"passed\": true, \"score\": 1.0, \"feedback\": \"\"\x7d" }

def c4res : ValidationResult :=
  match validate_result idTemplate c4exec [c5stage1, c5stage2] with
  | .ok r => r
  | .error _ => ⟨true, 0, [], "", []⟩

def c4so : StageOutput := c4res.stageResults.getD 0 ⟨"", PyVal.none, PyVal.none, PyVal.none, []⟩

/-- Witness for C4: the failing priority-10 stage makes the run invalid and,
aborting by default, leaves exactly one executed stage - the priority-5
stage never runs. -/
theorem failed_stage_invalidates_and_aborts_witness :
    c4res.isValid = false ∧ c4res.stageResults.length = 0 + 1 := by
  have h := failed_stage_invalidates_and_aborts idTemplate c4exec [c5stage1, c5stage2]
    c4res (by rfl) 0 c4so (by rfl) (by rfl)
  exact ⟨h.1, h.2.2 c5stage1 (by rfl) (by rfl)⟩

/-! ## Claim C2: post-parse normalization -/

/-- Counterexample to claim C2: a recovered object whose `score` is the
boolean `true` is accepted, not rejected - Python's
`isinstance(score, (int, float))` counts booleans as ints - and
`float(True)` makes the score `1.0`. -/
theorem boolean_score_is_accepted :
    parse_json_from_llm_output "\x7b\"passed\": true, \"score\": true, \"feedback\": \"ok\"\x7d"
      = .ok (.obj [("passed", .bool true), ("score", .float 1), ("feedback", .str "ok")]) := by
  rfl

def isOkE : Except String PyVal → Bool
  | .ok _ => true
  | .error _ => false

/-- The shape every successful extraction has: `passed` a boolean, `score`
a float, `feedback` a string. -/
def wellTypedJudgment (v : PyVal) : Bool :=
  match objGet v "passed", objGet v "score", objGet v "feedback" with
  | some (.bool _), some (.float _), some (.str _) => true
  | _, _, _ => false

/-- The dictionary after the `valid` to `passed` aliasing step. -/
def aliasValid (kvs : List (String × PyVal)) : List (String × PyVal) :=
  if (lookupKey kvs "valid").isSome && (lookupKey kvs "passed").isNone then
    upsert kvs "passed" ((lookupKey kvs "valid").getD .none)
  else kvs

/-- Inversion of a successful normalization: the checks held on the aliased
dictionary and the result is that dictionary with `score` coerced. -/
theorem normalizeParsed_ok_inv (kvs : List (String × PyVal)) (r : PyVal)
    (h : normalizeParsed (.obj kvs) = .ok r) :
    (lookupKey (aliasValid kvs) "passed").isSome = true ∧
    (lookupKey (aliasValid kvs) "score").isSome = true ∧
    (lookupKey (aliasValid kvs) "feedback").isSome = true ∧
    isBoolVal ((lookupKey (aliasValid kvs) "passed").getD .none) = true ∧
    isNumVal ((lookupKey (aliasValid kvs) "score").getD .none) = true ∧
    isStrVal ((lookupKey (aliasValid kvs) "feedback").getD .none) = true ∧
    r = .obj (upsert (aliasValid kvs) "score"
      (.float (pyFloat ((lookupKey (aliasValid kvs) "score").getD .none)))) := by
  unfold normalizeParsed at h
  dsimp only at h
  rw [show (if (lookupKey kvs "valid").isSome && (lookupKey kvs "passed").isNone then
      upsert kvs "passed" ((lookupKey kvs "valid").getD .none)
    else kvs) = aliasValid kvs from rfl] at h
  by_cases h1 : ((lookupKey (aliasValid kvs) "passed").isNone ||
      (lookupKey (aliasValid kvs) "score").isNone ||
      (lookupKey (aliasValid kvs) "feedback").isNone) = true
  · rw [if_pos h1] at h
    exact absurd h (by simp)
  · rw [if_neg h1] at h
    simp only [Bool.or_eq_true, not_or, Bool.not_eq_true, Option.isNone_eq_false_iff] at h1
    by_cases h2 : (!isBoolVal ((lookupKey (aliasValid kvs) "passed").getD .none) ||
        !isNumVal ((lookupKey (aliasValid kvs) "score").getD .none) ||
        !isStrVal ((lookupKey (aliasValid kvs) "feedback").getD .none)) = true
    · rw [if_pos h2] at h
      exact absurd h (by simp)
    · rw [if_neg h2] at h
      simp only [Bool.or_eq_true, not_or, Bool.not_eq_true', Bool.not_eq_false] at h2
      simp only [Except.ok.injEq] at h
      exact ⟨h1.1.1, h1.1.2, h1.2, h2.1.1, h2.1.2, h2.2, h.symm⟩

/-- A successful normalization produces a well-typed judgment. -/
theorem normalizeParsed_ok_wellTyped (v : PyVal) (r : PyVal)
    (h : normalizeParsed v = .ok r) : wellTypedJudgment r = true := by
  rcases v with _ | b | n | q | st | xs | kvs
  case obj =>
    rcases normalizeParsed_ok_inv kvs r h with ⟨hp, hs, hf, hbp, hns, hsf, hr⟩
    subst hr
    rcases hps : lookupKey (aliasValid kvs) "passed" with _ | vp
    · rw [hps] at hp
      exact absurd hp (by simp)
    · rcases hfs : lookupKey (aliasValid kvs) "feedback" with _ | vf
      · rw [hfs] at hf
        exact absurd hf (by simp)
      · rw [hps] at hbp
        rw [hfs] at hsf
        rcases vp with _ | bp | _ | _ | _ | _ | _ <;> simp [isBoolVal] at hbp
        rcases vf with _ | _ | _ | _ | sf | _ | _ <;> simp [isStrVal] at hsf
        simp only [wellTypedJudgment, objGet]
        rw [lookupKey_upsert_ne _ _ _ _ (by decide),
          lookupKey_upsert_self,
          lookupKey_upsert_ne _ _ _ _ (by decide), hps, hfs]
  all_goals exact absurd h (by simp [normalizeParsed])

/-- Every path of the extractor that returns at all returns through
normalization. -/
theorem parseLlmChars_ok_wellTyped (cs : List Char) (r : PyVal)
    (h : parseLlmChars cs = .ok r) : wellTypedJudgment r = true := by
  unfold parseLlmChars at h
  by_cases he : (stripChars cs).isEmpty = true
  · rw [if_pos he] at h
    exact absurd h (by simp)
  · rw [if_neg he] at h
    rcases hd : jsonLoadsChars cs with _ | v
    · rw [hd] at h
      dsimp only at h
      rcases hp2 : (if pyFalsyOpt (extractByPatterns cs) && hasBulletTrigger cs then
          if (bulletObj cs).isEmpty then extractByPatterns cs
          else some (.obj (bulletObj cs))
        else extractByPatterns cs) with _ | v2
      · rw [hp2] at h
        exact absurd h (by simp)
      · rw [hp2] at h
        dsimp only at h
        by_cases hfv : pyFalsy v2 = true
        · rw [if_pos hfv] at h
          exact absurd h (by simp)
        · rw [if_neg hfv] at h
          exact normalizeParsed_ok_wellTyped v2 r h
    · rw [hd] at h
      exact normalizeParsed_ok_wellTyped v r h

/-- Claim C2 (amended): after an object has been recovered, `valid` is
aliased to `passed` exactly when `valid` is present and `passed` absent (the
returned `passed` is the original `valid` value, and a present `passed` is
never overwritten); after aliasing, a missing `passed`, `score` or
`feedback` key is a hard failure, as is a non-boolean `passed`, a
non-string `feedback`, or a `score` that is neither a boolean nor an int nor
a float (booleans count as numbers, as Python `isinstance(x, (int, float))`
does, so a boolean score is accepted); empty input and input on which no
strategy yields a truthy object fail; every success returns `passed` as a
boolean, `feedback` as a string and `score` coerced to a float. -/
theorem extraction_normalization_contract :
    (∀ cs : List Char, (stripChars cs).isEmpty = true →
      parseLlmChars cs = .error "VALIDATION ERROR: Received empty output for JSON parsing.") ∧
    (∀ cs : List Char, jsonLoadsChars cs = Option.none →
      pyFalsyOpt (extractByPatterns cs) = true → bulletObj cs = [] →
      isOkE (parseLlmChars cs) = false) ∧
    (∀ (kvs : List (String × PyVal)) (w : PyVal) (r : PyVal),
      lookupKey kvs "passed" = Option.none → lookupKey kvs "valid" = some w →
      normalizeParsed (.obj kvs) = .ok r → objGet r "passed" = some w) ∧
    (∀ (kvs : List (String × PyVal)) (v : PyVal) (r : PyVal),
      lookupKey kvs "passed" = some v →
      normalizeParsed (.obj kvs) = .ok r → objGet r "passed" = some v) ∧
    (∀ kvs : List (String × PyVal),
      ((lookupKey (aliasValid kvs) "passed").isNone = true ∨
       (lookupKey (aliasValid kvs) "score").isNone = true ∨
       (lookupKey (aliasValid kvs) "feedback").isNone = true ∨
       isBoolVal ((lookupKey (aliasValid kvs) "passed").getD .none) = false ∨
       isNumVal ((lookupKey (aliasValid kvs) "score").getD .none) = false ∨
       isStrVal ((lookupKey (aliasValid kvs) "feedback").getD .none) = false) →
      isOkE (normalizeParsed (.obj kvs)) = false) ∧
    (∀ (kvs : List (String × PyVal)) (sc : PyVal) (r : PyVal),
      lookupKey kvs "score" = some sc →
      normalizeParsed (.obj kvs) = .ok r →
      objGet r "score" = some (.float (pyFloat sc))) ∧
    (∀ (cs : List Char) (r : PyVal),
      parseLlmChars cs = .ok r → wellTypedJudgment r = true) := by
  refine ⟨?_, ?_, ?_, ?_, ?_, ?_, parseLlmChars_ok_wellTyped⟩
  · intro cs he
    unfold parseLlmChars
    rw [if_pos he]
  · intro cs hd hpat hbul
    unfold parseLlmChars
    by_cases he : (stripChars cs).isEmpty = true
    · rw [if_pos he]
      rfl
    · rw [if_neg he, hd]
      dsimp only
      rw [show (if pyFalsyOpt (extractByPatterns cs) && hasBulletTrigger cs then
          if (bulletObj cs).isEmpty then extractByPatterns cs
          else some (.obj (bulletObj cs))
        else extractByPatterns cs) =
          (if hasBulletTrigger cs then extractByPatterns cs else extractByPatterns cs) from by
        rw [hpat, hbul]
        by_cases ht : hasBulletTrigger cs = true <;> simp [ht]]
      rcases hp : extractByPatterns cs with _ | v
      · by_cases ht : hasBulletTrigger cs = true <;> simp [ht, isOkE]
      · rw [hp] at hpat
        simp only [pyFalsyOpt] at hpat
        by_cases ht : hasBulletTrigger cs = true <;> simp [ht, hpat, isOkE]
  · intro kvs w r hpn hv h
    rcases normalizeParsed_ok_inv kvs r h with ⟨-, -, -, -, -, -, hr⟩
    subst hr
    have halias : aliasValid kvs = upsert kvs "passed" w := by
      unfold aliasValid
      rw [hv, hpn]
      rfl
    simp only [objGet]
    rw [lookupKey_upsert_ne _ _ _ _ (by decide), halias, lookupKey_upsert_self]
  · intro kvs v r hp h
    rcases normalizeParsed_ok_inv kvs r h with ⟨-, -, -, -, -, -, hr⟩
    subst hr
    have halias : aliasValid kvs = kvs := by
      unfold aliasValid
      rw [hp]
      simp
    simp only [objGet]
    rw [lookupKey_upsert_ne _ _ _ _ (by decide), halias, hp]
  · intro kvs hbad
    rcases hres : normalizeParsed (.obj kvs) with e | r
    · rfl
    · exfalso
      rcases normalizeParsed_ok_inv kvs r hres with ⟨h1, h2, h3, h4, h5, h6, -⟩
      rcases hbad with hb | hb | hb | hb | hb | hb
      · rw [Option.isNone_iff_eq_none] at hb
        rw [hb] at h1
        exact absurd h1 (by simp)
      · rw [Option.isNone_iff_eq_none] at hb
        rw [hb] at h2
        exact absurd h2 (by simp)
      · rw [Option.isNone_iff_eq_none] at hb
        rw [hb] at h3
        exact absurd h3 (by simp)
      · rw [hb] at h4
        exact absurd h4 (by simp)
      · rw [hb] at h5
        exact absurd h5 (by simp)
      · rw [hb] at h6
        exact absurd h6 (by simp)
  · intro kvs sc r hsc h
    rcases normalizeParsed_ok_inv kvs r h with ⟨-, -, -, -, -, -, hr⟩
    subst hr
    have hsc2 : lookupKey (aliasValid kvs) "score" = some sc := by
      unfold aliasValid
      split
      · rw [lookupKey_upsert_ne _ _ _ _ (by decide), hsc]
      · exact hsc
    simp only [objGet]
    rw [lookupKey_upsert_self, hsc2]
    rfl

/-- Witness for C2 (amended): aliasing and coercion on a concrete object,
and a hard failure on a missing feedback key. -/
theorem extraction_normalization_contract_witness :
    objGet (.obj [("valid", .bool true), ("score", .float 1), ("feedback", .str "y"),
        ("passed", .bool true)]) "passed" = some (.bool true) ∧
    isOkE (normalizeParsed (.obj [("passed", .bool true), ("score", .int 1)])) = false := by
  constructor
  · exact extraction_normalization_contract.2.2.1
      [("valid", .bool true), ("score", .int 1), ("feedback", .str "y")]
      (.bool true) _ (by rfl) (by rfl) (by rfl)
  · exact extraction_normalization_contract.2.2.2.2.1
      [("passed", .bool true), ("score", .int 1)] (Or.inr (Or.inr (Or.inl (by rfl))))

/-! ## Claim C1: the three supported shapes -/

/-- Counterexample to claim C1: a fenced, well-formed JSON judgment whose
`feedback` string contains a closing brace followed by a space and three
backticks.  The lazy capture of pattern 1 stops at that inner brace (the
following backticks satisfy the closing-fence part), producing an
unparseable capture; patterns 2 and 3 and the bullet trigger also fail, so
extraction raises although the text is a well-formed fenced judgment. -/
theorem fenced_extraction_can_fail :
    jsonLoadsChars
      ("\x7b\"passed\": true, \"score\": 1.0, \"feedback\": \"x\x7d \x60\x60\x60\"\x7d".data)
      = some (.obj [("passed", .bool true), ("score", .float 1),
          ("feedback", .str "x\x7d \x60\x60\x60")]) ∧
    parse_json_from_llm_output
      "\x60\x60\x60json\n\x7b\"passed\": true, \"score\": 1.0, \"feedback\": \"x\x7d \x60\x60\x60\"\x7d\n\x60\x60\x60"
      = .error "VALIDATION ERROR: Could not extract valid JSON from output." := by
  exact ⟨by rfl, by rfl⟩

/-- A character that may appear verbatim in a JSON string literal. -/
def jsonSafeChar (c : Char) : Bool :=
  !(c == '"') && !(c == '\\') && !(Nat.blt c.toNat 32)

/-- A JSON number literal: digits with no forbidden leading zero,
optionally followed by a dot and at least one digit. -/
def JsonNumLit (S : List Char) : Bool :=
  let ir := spanP isDigitCh S
  (!ir.1.isEmpty) && !(Nat.blt 1 ir.1.length && ir.1.head? == some '0') &&
  (ir.2.isEmpty ||
    ((ir.2.head? == some '.') &&
      (let fd := spanP isDigitCh ir.2.tail
       (!fd.1.isEmpty) && fd.2.isEmpty)))

/-- The canonical plain rendering of a judgment object. -/
def renderPlain (b : Bool) (S F : List Char) : List Char :=
  ("\x7b\"passed\": ".data) ++ (if b then "true".data else "false".data) ++
  (", \"score\": ".data) ++ S ++ (", \"feedback\": \"".data) ++ F ++ ("\"\x7d".data)

/-- The fenced rendering: prose, an opening fence with optional `json`
label, the object on its own line, a closing fence, trailing prose. -/
def renderFenced (lbl : Bool) (P Suf : List Char) (b : Bool) (S F : List Char) : List Char :=
  P ++ ("\x60\x60\x60".data) ++ (if lbl then "json".data else []) ++
  '\n' :: renderPlain b S F ++ '\n' :: ("\x60\x60\x60".data) ++ Suf

/-- The bullet-list rendering. -/
def renderBullets (b : Bool) (S F : List Char) : List Char :=
  ("- passed: ".data) ++ (if b then "true".data else "false".data) ++
  '\n' :: ("- score: ".data) ++ S ++ '\n' :: ("- feedback: ".data) ++ F

/-! Span and parser lemmas for symbolic texts. -/

theorem spanP_all_true (p : Char → Bool) (xs : List Char) (h : ∀ c ∈ xs, p c = true) :
    spanP p xs = (xs, []) := by
  induction xs with
  | nil => rfl
  | cons c cs ih =>
    rw [spanP, if_pos (h c (by simp)), ih (fun d hd => h d (by simp [hd]))]

theorem spanP_append_stop (p : Char → Bool) (xs ys : List Char) (y : Char)
    (h : ∀ c ∈ xs, p c = true) (hy : p y = false) :
    spanP p (xs ++ y :: ys) = (xs, y :: ys) := by
  induction xs with
  | nil => simp [spanP, hy]
  | cons c cs ih =>
    rw [List.cons_append, spanP, if_pos (h c (by simp)),
      ih (fun d hd => h d (by simp [hd]))]

theorem dropWhile_all_append (p : Char → Bool) (xs ys : List Char)
    (h : ∀ c ∈ xs, p c = true) :
    (xs ++ ys).dropWhile p = ys.dropWhile p := by
  induction xs with
  | nil => rfl
  | cons c cs ih =>
    rw [List.cons_append, List.dropWhile_cons, if_pos (h c (by simp)),
      ih (fun d hd => h d (by simp [hd]))]

theorem dropWhile_cons_neg (p : Char → Bool) (c : Char) (cs : List Char)
    (h : p c = false) : (c :: cs).dropWhile p = c :: cs := by
  rw [List.dropWhile_cons, if_neg (by simp [h])]

theorem parseStringBody_safe (F rest : List Char) (h : ∀ c ∈ F, jsonSafeChar c = true) :
    parseStringBody (F ++ '"' :: rest) = some (F, rest) := by
  induction F with
  | nil => simp [parseStringBody.eq_def]
  | cons c cs ih =>
    have hc := h c (by simp)
    simp only [jsonSafeChar, Bool.and_eq_true, Bool.not_eq_true', beq_eq_false_iff_ne,
      ne_eq] at hc
    rw [List.cons_append, parseStringBody.eq_def]
    dsimp only
    rw [if_neg hc.1.1, if_neg hc.1.2, if_neg (by simp [hc.2]),
      ih (fun d hd => h d (by simp [hd]))]
    rfl

theorem spanP_fst_all (p : Char → Bool) (cs : List Char) :
    ∀ c ∈ (spanP p cs).1, p c = true := by
  induction cs with
  | nil => simp [spanP]
  | cons c cs ih =>
    by_cases h : p c = true
    · simp only [spanP, h, if_true]
      intro d hd
      rcases List.mem_cons.mp hd with rfl | hd
      · exact h
      · exact ih d hd
    · simp [spanP, h]

theorem digit_ne (d c : Char) (hd : isDigitCh d = true) (hc : isDigitCh c = false) :
    d ≠ c := by
  intro h
  subst h
  rw [hd] at hc
  exact absurd hc (by simp)

/-- Parsing a JSON number literal followed by a delimiter. -/
theorem parseNumberChars_lit (S : List Char) (y : Char) (ys : List Char)
    (hS : JsonNumLit S = true) (hy : isDigitCh y = false) (hy2 : y ≠ '.')
    (hy3 : y ≠ 'e') (hy4 : y ≠ 'E') :
    ∃ v, parseNumberChars (S ++ y :: ys) = some (v, y :: ys) ∧ isNumVal v = true := by
  unfold JsonNumLit at hS
  rcases hsp : (spanP isDigitCh S) with ⟨ip, rest2⟩
  rw [hsp] at hS
  dsimp only at hS
  have hS1 := spanP_append_eq isDigitCh S
  rw [hsp] at hS1
  dsimp only at hS1
  have hipall : ∀ c ∈ ip, isDigitCh c = true := by
    intro c hc
    have h2 := spanP_fst_all isDigitCh S
    rw [hsp] at h2
    exact h2 c hc
  simp only [Bool.and_eq_true] at hS
  have hipne : ip ≠ [] := by
    intro h
    rw [h] at hS
    simp at hS
  have hlead : (Nat.blt 1 ip.length && ip.head? == some '0') = false := by
    have h3 := hS.1.2
    simp only [Bool.not_eq_true'] at h3
    exact h3
  have hmat := hS.2
  rcases hip : ip with _ | ⟨d, ip2⟩
  · exact absurd hip hipne
  subst hip
  have hd : isDigitCh d = true := hipall d (by simp)
  have hdm2 : ((some d : Option Char) == some '-') = false := by
    simp only [beq_eq_false_iff_ne, ne_eq, Option.some.injEq]
    exact digit_ne d '-' hd (by decide)
  rcases hrest : rest2 with _ | ⟨r0, fr⟩
  · -- S is a pure integer literal
    rw [hrest, List.append_nil] at hS1
    refine ⟨.int (Int.ofNat (digitsToNat (d :: ip2))), ?_, by rfl⟩
    rw [← hS1]
    have hspan2 : spanP isDigitCh (d :: (ip2 ++ y :: ys)) = (d :: ip2, y :: ys) := by
      have h5 := spanP_append_stop isDigitCh (d :: ip2) ys y hipall hy
      simpa using h5
    unfold parseNumberChars
    simp only [List.cons_append, List.head?_cons, hdm2, Bool.false_eq_true, if_false]
    rw [hspan2]
    dsimp only
    rw [if_neg (by simp)]
    rw [show (Nat.blt 1 (d :: ip2).length && (d :: ip2).head? == some '0') = false from hlead]
    simp only [Bool.false_eq_true, if_false]
    have hmatch : (match (y :: ys : List Char) with
        | '.' :: r => (true, (spanP isDigitCh r).1, (spanP isDigitCh r).2)
        | x => (false, ([] : List Char), y :: ys)) = (false, [], y :: ys) := by
      split
      · rename_i r heq
        rw [List.cons.injEq] at heq
        exact absurd heq.1 hy2
      · rfl
    rw [hmatch]
    simp [hy3, hy4]
  · -- S has a fractional part
    rw [hrest] at hmat hS1
    simp only [List.isEmpty_cons, Bool.false_or, List.head?_cons, List.tail_cons,
      Bool.and_eq_true, beq_iff_eq, Option.some.injEq] at hmat
    have hr0 : r0 = '.' := hmat.1
    subst hr0
    have hfd0 := hmat.2
    rcases hsp2 : (spanP isDigitCh fr) with ⟨fd, fdrest⟩
    rw [hsp2] at hfd0
    dsimp only at hfd0
    simp only [Bool.and_eq_true, Bool.not_eq_true', List.isEmpty_eq_true,
      List.isEmpty_iff] at hfd0
    have hfdall : ∀ c ∈ fd, isDigitCh c = true := by
      intro c hc
      have h2 := spanP_fst_all isDigitCh fr
      rw [hsp2] at h2
      exact h2 c hc
    have hfr : fr = fd := by
      have h4 := spanP_append_eq isDigitCh fr
      rw [hsp2] at h4
      dsimp only at h4
      rw [hfd0.2, List.append_nil] at h4
      exact h4.symm
    have hfr2 := hfr.symm
    subst hfr2
    rw [← hS1]
    refine ⟨.float ((Int.ofNat (digitsToNat ((d :: ip2) ++ fd)) : ℚ) *
      pow10 ((Int.ofNat (digitsToNat ([] : List Char))) - Int.ofNat fd.length)), ?_, by rfl⟩
    have hspan2 : spanP isDigitCh (d :: (ip2 ++ ('.' :: (fd ++ y :: ys)))) =
        (d :: ip2, '.' :: (fd ++ y :: ys)) := by
      have h5 := spanP_append_stop isDigitCh (d :: ip2) (fd ++ y :: ys) '.' hipall (by decide)
      simpa using h5
    have hspan3 : spanP isDigitCh (fd ++ y :: ys) = (fd, y :: ys) :=
      spanP_append_stop isDigitCh fd ys y hfdall hy
    unfold parseNumberChars
    simp only [List.cons_append, List.append_assoc, List.cons_append, List.head?_cons,
      hdm2, Bool.false_eq_true, if_false]
    rw [hspan2]
    dsimp only
    rw [if_neg (by simp)]
    rw [show (Nat.blt 1 (d :: ip2).length && (d :: ip2).head? == some '0') = false from hlead]
    simp only [Bool.false_eq_true, if_false]
    rw [hspan3]
    simp [hfd0.1, hy3, hy4]

theorem psb_passed (rest : List Char) :
    parseStringBody ('p' :: 'a' :: 's' :: 's' :: 'e' :: 'd' :: '"' :: rest)
      = some (['p', 'a', 's', 's', 'e', 'd'], rest) :=
  parseStringBody_safe ['p', 'a', 's', 's', 'e', 'd'] rest (by decide)

theorem psb_score (rest : List Char) :
    parseStringBody ('s' :: 'c' :: 'o' :: 'r' :: 'e' :: '"' :: rest)
      = some (['s', 'c', 'o', 'r', 'e'], rest) :=
  parseStringBody_safe ['s', 'c', 'o', 'r', 'e'] rest (by decide)

theorem psb_feedback (rest : List Char) :
    parseStringBody ('f' :: 'e' :: 'e' :: 'd' :: 'b' :: 'a' :: 'c' :: 'k' :: '"' :: rest)
      = some (['f', 'e', 'e', 'd', 'b', 'a', 'c', 'k'], rest) :=
  parseStringBody_safe ['f', 'e', 'e', 'd', 'b', 'a', 'c', 'k'] rest (by decide)

theorem digitCh_not_jsonWs (d : Char) (hd : isDigitCh d = true) : isJsonWs d = false := by
  by_contra h
  simp only [Bool.not_eq_false, isJsonWs, Bool.or_eq_true, beq_iff_eq] at h
  rcases h with ((h | h) | h) | h <;> subst h <;> simp [isDigitCh] at hd

theorem JsonNumLit_head (S : List Char) (hS : JsonNumLit S = true) :
    ∃ d S2, S = d :: S2 ∧ isDigitCh d = true := by
  rcases S with _ | ⟨d, S2⟩
  · simp [JsonNumLit, spanP] at hS
  · refine ⟨d, S2, rfl, ?_⟩
    by_contra h
    simp only [Bool.not_eq_true] at h
    rw [JsonNumLit] at hS
    rw [show spanP isDigitCh (d :: S2) = ([], d :: S2) from by simp [spanP, h]] at hS
    simp at hS

/-- Parsing the canonical plain rendering (with any surplus fuel). -/
theorem parseValue_renderPlain (g : ℕ) (b : Bool) (S F : List Char)
    (hS : JsonNumLit S = true) (hF : ∀ c ∈ F, jsonSafeChar c = true) :
    ∃ sv, parseValue (g + 5) (renderPlain b S F)
      = some (.obj [("passed", .bool b), ("score", sv),
          ("feedback", .str (String.mk F))], [])
      ∧ isNumVal sv = true := by
  obtain ⟨d, S2, hsplit, hd⟩ := JsonNumLit_head S hS
  subst hsplit
  obtain ⟨sv, hsv, hnum⟩ := parseNumberChars_lit (d :: S2) ','
    (' ' :: '"' :: 'f' :: 'e' :: 'e' :: 'd' :: 'b' :: 'a' :: 'c' :: 'k' :: '"' :: ':' ::
      ' ' :: '"' :: (F ++ '"' :: '\x7d' :: []))
    hS (by decide) (by decide) (by decide) (by decide)
  refine ⟨sv, ?_, hnum⟩
  have hFB : parseStringBody (F ++ '"' :: '\x7d' :: []) = some (F, ['\x7d']) :=
    parseStringBody_safe F ['\x7d'] hF
  have hdw : isJsonWs d = false := digitCh_not_jsonWs d hd
  have hne1 : ¬ d = '\x7b' := digit_ne d '\x7b' hd (by decide)
  have hne2 : ¬ d = '[' := digit_ne d '[' hd (by decide)
  have hne3 : ¬ d = '"' := digit_ne d '"' hd (by decide)
  have hne4 : ¬ d = 't' := digit_ne d 't' hd (by decide)
  have hne5 : ¬ d = 'f' := digit_ne d 'f' hd (by decide)
  have hne6 : ¬ d = 'n' := digit_ne d 'n' hd (by decide)
  have hr : renderPlain b (d :: S2) F =
      '\x7b' :: '"' :: 'p' :: 'a' :: 's' :: 's' :: 'e' :: 'd' :: '"' :: ':' :: ' ' ::
      ((if b then "true".data else "false".data) ++
        (',' :: ' ' :: '"' :: 's' :: 'c' :: 'o' :: 'r' :: 'e' :: '"' :: ':' :: ' ' ::
          (d :: S2 ++
            (',' :: ' ' :: '"' :: 'f' :: 'e' :: 'e' :: 'd' :: 'b' :: 'a' :: 'c' :: 'k' ::
              '"' :: ':' :: ' ' :: '"' :: (F ++ '"' :: '\x7d' :: []))))) := by
    rcases b <;> simp [renderPlain]
  simp only [List.cons_append] at hsv
  rw [hr]
  rcases b
  · simp only [if_false, Bool.false_eq_true]
    simp +decide [parseValue, parseMembers, psb_passed, psb_score, psb_feedback,
      List.dropWhile_cons, hdw, hne1, hne2, hne3, hne4, hne5, hne6, hd, hFB, hsv,
      startsWithChars, upsert, lookupKey, List.cons_append, List.append_assoc]
  · simp only [if_true]
    simp +decide [parseValue, parseMembers, psb_passed, psb_score, psb_feedback,
      List.dropWhile_cons, hdw, hne1, hne2, hne3, hne4, hne5, hne6, hd, hFB, hsv,
      startsWithChars, upsert, lookupKey, List.cons_append, List.append_assoc]

/-- `json.loads` succeeds on the canonical plain rendering. -/
theorem jsonLoadsChars_renderPlain (b : Bool) (S F : List Char)
    (hS : JsonNumLit S = true) (hF : ∀ c ∈ F, jsonSafeChar c = true) :
    ∃ sv, jsonLoadsChars (renderPlain b S F)
      = some (.obj [("passed", .bool b), ("score", sv),
          ("feedback", .str (String.mk F))])
      ∧ isNumVal sv = true := by
  obtain ⟨sv, hpv, hnum⟩ := parseValue_renderPlain
    ((renderPlain b S F).length - 3) b S F hS hF
  have hlen : 3 ≤ (renderPlain b S F).length := by
    rcases b <;> simp [renderPlain]
  have hfuel : (renderPlain b S F).length - 3 + 5 = (renderPlain b S F).length + 2 := by
    omega
  rw [hfuel] at hpv
  refine ⟨sv, ?_, hnum⟩
  rw [jsonLoadsChars, hpv]
  rfl

theorem mem_dropWhile_of_neg (p : Char → Bool) (c : Char) (cs : List Char)
    (hc : c ∈ cs) (h : p c = false) : c ∈ cs.dropWhile p := by
  induction cs with
  | nil => cases hc
  | cons a l ih =>
    rw [List.dropWhile_cons]
    by_cases ha : p a = true
    · rw [if_pos (by simp [ha])]
      rcases List.mem_cons.mp hc with rfl | hcl
      · rw [h] at ha
        exact absurd ha (by simp)
      · exact ih hcl
    · rw [if_neg (by simp [Bool.not_eq_true] at ha ⊢; exact ha)]
      exact hc

theorem stripChars_ne_empty (cs : List Char) (c : Char) (hc : c ∈ cs)
    (hns : isReWs c = false) : (stripChars cs).isEmpty = false := by
  rw [stripChars]
  by_contra hni
  simp only [Bool.not_eq_false] at hni
  rw [List.isEmpty_iff, List.reverse_eq_nil_iff] at hni
  have h1 : c ∈ cs.dropWhile isReWs := mem_dropWhile_of_neg isReWs c cs hc hns
  have h2 : c ∈ (cs.dropWhile isReWs).reverse := List.mem_reverse.mpr h1
  have h3 : c ∈ ((cs.dropWhile isReWs).reverse).dropWhile isReWs :=
    mem_dropWhile_of_neg isReWs c _ h2 hns
  rw [hni] at h3
  cases h3

/-- Extraction on the canonical plain rendering: the direct parse succeeds
and normalization returns the typed judgment. -/
theorem parseLlmChars_renderPlain (b : Bool) (S F : List Char)
    (hS : JsonNumLit S = true) (hF : ∀ c ∈ F, jsonSafeChar c = true) :
    ∃ sv, isNumVal sv = true ∧ parseLlmChars (renderPlain b S F)
      = .ok (.obj [("passed", .bool b), ("score", .float (pyFloat sv)),
          ("feedback", .str (String.mk F))]) := by
  obtain ⟨sv, hjl, hnum⟩ := jsonLoadsChars_renderPlain b S F hS hF
  refine ⟨sv, hnum, ?_⟩
  have hne : (stripChars (renderPlain b S F)).isEmpty = false :=
    stripChars_ne_empty _ '\x7b' (by rcases b <;> simp [renderPlain]) (by decide)
  rw [parseLlmChars, if_neg (by simp [hne]), hjl]
  simp +decide [normalizeParsed, lookupKey, upsert, hnum, isBoolVal, isStrVal]

/-! Fence-scanner lemmas for symbolic fenced texts. -/

theorem fenceAt1_none (c : Char) (cs : List Char) (hc : ¬ c = '\x60') :
    fenceAt1 (c :: cs) = Option.none := by
  have h : startsWithChars (c :: cs) fenceMark = false := by
    simp [startsWithChars, fenceMark, hc]
  rw [fenceAt1, h]
  rfl

theorem fenceAt2_none (c : Char) (cs : List Char) (hc : ¬ c = '\x60') :
    fenceAt2 (c :: cs) = Option.none := by
  have h : startsWithChars (c :: cs) fenceMark = false := by
    simp [startsWithChars, fenceMark, hc]
  rw [fenceAt2, h]
  rfl

theorem scanFence1_skip (P rest : List Char) (hP : ∀ c ∈ P, ¬ c = '\x60') :
    scanFence1 (P ++ rest) = scanFence1 rest := by
  induction P with
  | nil => rfl
  | cons c P ih =>
    rw [List.cons_append, scanFence1, fenceAt1_none c _ (hP c (by simp))]
    exact ih (fun d hd => hP d (by simp [hd]))

theorem scanFence2_skip (P rest : List Char) (hP : ∀ c ∈ P, ¬ c = '\x60') :
    scanFence2 (P ++ rest) = scanFence2 rest := by
  induction P with
  | nil => rfl
  | cons c P ih =>
    rw [List.cons_append, scanFence2, fenceAt2_none c _ (hP c (by simp))]
    exact ih (fun d hd => hP d (by simp [hd]))

theorem scanFence1_none (cs : List Char) (h : ∀ c ∈ cs, ¬ c = '\x60') :
    scanFence1 cs = Option.none := by
  have := scanFence1_skip cs [] h
  simpa using this

theorem scanFence2_none (cs : List Char) (h : ∀ c ∈ cs, ¬ c = '\x60') :
    scanFence2 cs = Option.none := by
  have := scanFence2_skip cs [] h
  simpa using this

theorem lazyClose_through (acc xs rest : List Char) (hxs : ∀ c ∈ xs, ¬ c = '\x7d')
    (hf : fenceAfter rest = true) :
    lazyClose acc (xs ++ '\x7d' :: rest) = some (acc ++ xs ++ ['\x7d']) := by
  induction xs generalizing acc with
  | nil =>
    rw [List.nil_append, lazyClose]
    simp [hf]
  | cons c xs ih =>
    rw [List.cons_append, lazyClose]
    rw [show (decide (c = '\x7d') && fenceAfter (xs ++ '\x7d' :: rest)) = false by
      simp [hxs c (by simp)]]
    have := ih (acc ++ [c]) (fun d hd => hxs d (by simp [hd]))
    simpa [List.append_assoc] using this

theorem JsonNumLit_chars (S : List Char) (hS : JsonNumLit S = true) :
    ∀ c ∈ S, isDigitCh c = true ∨ c = '.' := by
  intro c hc
  rw [JsonNumLit] at hS
  rcases hsp : spanP isDigitCh S with ⟨ip, r2⟩
  rw [hsp] at hS
  dsimp only at hS
  have hA := spanP_append_eq isDigitCh S
  rw [hsp] at hA
  have hip : ∀ d ∈ ip, isDigitCh d = true := by
    have h0 := spanP_fst_all isDigitCh S
    rw [hsp] at h0
    exact h0
  rw [← hA] at hc
  rcases List.mem_append.mp hc with h | h
  · exact Or.inl (hip c h)
  · simp only [Bool.and_eq_true, Bool.or_eq_true] at hS
    rcases hS.2 with hemp | hdot
    · rw [List.isEmpty_iff] at hemp
      rw [hemp] at h
      cases h
    · rcases r2 with _ | ⟨d0, r3⟩
      · cases h
      · have hd0 : d0 = '.' := by simpa using hdot.1
        subst hd0
        rcases List.mem_cons.mp h with rfl | h3
        · exact Or.inr rfl
        · rcases hfd : spanP isDigitCh r3 with ⟨fd1, fd2⟩
          have hd2 := hdot.2
          rw [show ('.' :: r3).tail = r3 from rfl, hfd] at hd2
          dsimp only at hd2
          have hfd2 : fd2 = [] := by
            rw [List.isEmpty_iff] at hd2
            exact hd2.2
          have hA3 := spanP_append_eq isDigitCh r3
          rw [hfd] at hA3
          dsimp only at hA3
          rw [hfd2, List.append_nil] at hA3
          have hfall := spanP_fst_all isDigitCh r3
          rw [hfd] at hfall
          rw [← hA3] at h3
          exact Or.inl (hfall c h3)

/-- The inside of the plain rendering between the braces. -/
def plainMid (b : Bool) (S F : List Char) : List Char :=
  ("\"passed\": ".data) ++ (if b then "true".data else "false".data) ++
  (", \"score\": ".data) ++ S ++ (", \"feedback\": \"".data) ++ F ++ ['"']

theorem renderPlain_decomp (b : Bool) (S F : List Char) :
    renderPlain b S F = '\x7b' :: (plainMid b S F ++ ['\x7d']) := by
  rcases b <;> simp [renderPlain, plainMid]

theorem mem_lit_all (p : Char → Bool) (L : List Char) (hL : L.all p = true)
    (c : Char) (h : c ∈ L) : p c = true :=
  List.all_eq_true.mp hL c h

theorem plainMid_no_brace (b : Bool) (S F : List Char)
    (hS : JsonNumLit S = true) (hF : ∀ c ∈ F, ¬ c = '\x7d') :
    ∀ c ∈ plainMid b S F, ¬ c = '\x7d' := by
  intro c hc
  simp only [plainMid, List.mem_append] at hc
  have lit : ∀ L : List Char, L.all (fun d => !(d == '\x7d')) = true → c ∈ L →
      ¬ c = '\x7d' := by
    intro L hL h
    have := mem_lit_all _ L hL c h
    simpa using this
  rcases hc with ((((((h | h) | h) | h) | h) | h) | h)
  · exact lit _ (by decide) h
  · rcases b
    · exact lit _ (by decide) h
    · exact lit _ (by decide) h
  · exact lit _ (by decide) h
  · rcases JsonNumLit_chars S hS c h with hd | hd
    · exact digit_ne c '\x7d' hd (by decide)
    · subst hd
      decide
  · exact lit _ (by decide) h
  · exact hF c h
  · exact lit _ (by decide) h

theorem fenceAt1_open (rest : List Char) :
    fenceAt1 ('\x60' :: ('\x60' :: ('\x60' :: rest))) =
      match (if startsWithChars rest ("json".data) = true then fenceBody (rest.drop 4)
        else Option.none) with
      | some cap => some cap
      | Option.none => fenceBody rest := by
  rw [fenceAt1]
  rw [show startsWithChars ('\x60' :: ('\x60' :: ('\x60' :: rest))) fenceMark = true from by
    simp [startsWithChars, fenceMark]]
  rfl

theorem fenceBody_plain (b : Bool) (S F Suf : List Char)
    (hmid : ∀ c ∈ plainMid b S F, ¬ c = '\x7d') :
    fenceBody ('\n' :: (renderPlain b S F ++ '\n' :: ('\x60' :: ('\x60' :: ('\x60' :: Suf)))))
      = some (renderPlain b S F) := by
  have hfa : fenceAfter ('\n' :: ('\x60' :: ('\x60' :: ('\x60' :: Suf)))) = true := by
    simp +decide [fenceAfter, List.dropWhile_cons, startsWithChars, fenceMark]
  rw [renderPlain_decomp, fenceBody]
  rw [show List.dropWhile isReWs
      ('\n' :: (('\x7b' :: (plainMid b S F ++ ['\x7d'])) ++
        '\n' :: ('\x60' :: ('\x60' :: ('\x60' :: Suf)))))
      = '\x7b' :: ((plainMid b S F ++ ['\x7d']) ++
        '\n' :: ('\x60' :: ('\x60' :: ('\x60' :: Suf)))) from by
    simp +decide [List.dropWhile_cons]]
  rw [show (plainMid b S F ++ ['\x7d']) ++ '\n' :: ('\x60' :: ('\x60' :: ('\x60' :: Suf)))
      = plainMid b S F ++ '\x7d' :: ('\n' :: ('\x60' :: ('\x60' :: ('\x60' :: Suf)))) from by
    simp]
  show lazyClose ['\x7b']
      (plainMid b S F ++ '\x7d' :: ('\n' :: ('\x60' :: ('\x60' :: ('\x60' :: Suf)))))
    = some ('\x7b' :: (plainMid b S F ++ ['\x7d']))
  rw [lazyClose_through _ _ _ hmid hfa]
  simp

theorem scanFence1_renderFenced (lbl : Bool) (P Suf : List Char) (b : Bool) (S F : List Char)
    (hP : ∀ c ∈ P, ¬ c = '\x60')
    (hmid : ∀ c ∈ plainMid b S F, ¬ c = '\x7d') :
    scanFence1 (renderFenced lbl P Suf b S F) = some (renderPlain b S F) := by
  rcases lbl
  · have hsplit : renderFenced false P Suf b S F =
        P ++ '\x60' :: ('\x60' :: ('\x60' ::
          ('\n' :: (renderPlain b S F ++ '\n' :: ('\x60' :: ('\x60' :: ('\x60' :: Suf))))))) := by
      simp [renderFenced]
    rw [hsplit, scanFence1_skip P _ hP, scanFence1, fenceAt1_open]
    rw [show startsWithChars
        ('\n' :: (renderPlain b S F ++ '\n' :: ('\x60' :: ('\x60' :: ('\x60' :: Suf)))))
        ("json".data) = false from by simp [startsWithChars]]
    rw [show (if false = true then fenceBody
        (('\n' :: (renderPlain b S F ++ '\n' :: ('\x60' :: ('\x60' :: ('\x60' :: Suf))))).drop 4)
        else Option.none) = Option.none from by simp]
    rw [fenceBody_plain b S F Suf hmid]
  · have hsplit : renderFenced true P Suf b S F =
        P ++ '\x60' :: ('\x60' :: ('\x60' ::
          ('j' :: ('s' :: ('o' :: ('n' ::
            ('\n' :: (renderPlain b S F ++
              '\n' :: ('\x60' :: ('\x60' :: ('\x60' :: Suf))))))))))) := by
      simp [renderFenced]
    rw [hsplit, scanFence1_skip P _ hP, scanFence1, fenceAt1_open]
    rw [show startsWithChars
        ('j' :: ('s' :: ('o' :: ('n' ::
          ('\n' :: (renderPlain b S F ++ '\n' :: ('\x60' :: ('\x60' :: ('\x60' :: Suf)))))))))
        ("json".data) = true from by simp [startsWithChars]]
    rw [show (('j' :: ('s' :: ('o' :: ('n' ::
        ('\n' :: (renderPlain b S F ++ '\n' :: ('\x60' :: ('\x60' :: ('\x60' :: Suf))))))))).drop 4)
        = '\n' :: (renderPlain b S F ++ '\n' :: ('\x60' :: ('\x60' :: ('\x60' :: Suf)))) from rfl]
    rw [fenceBody_plain b S F Suf hmid]
    rfl

/-- Extraction on the fenced rendering: when the whole text is not itself
valid JSON (any genuine prose ensures this), the prose is backtick-free and
the score/feedback contents contain no closing brace, pattern 1 recovers the
object and normalization returns the typed judgment. -/
theorem parseLlmChars_renderFenced (lbl : Bool) (P Suf : List Char) (b : Bool)
    (S F : List Char)
    (hS : JsonNumLit S = true) (hF : ∀ c ∈ F, jsonSafeChar c = true)
    (hFb : ∀ c ∈ F, ¬ c = '\x7d') (hP : ∀ c ∈ P, ¬ c = '\x60')
    (hnd : jsonLoadsChars (renderFenced lbl P Suf b S F) = Option.none) :
    ∃ sv, isNumVal sv = true ∧ parseLlmChars (renderFenced lbl P Suf b S F)
      = .ok (.obj [("passed", .bool b), ("score", .float (pyFloat sv)),
          ("feedback", .str (String.mk F))]) := by
  obtain ⟨sv, hjl, hnum⟩ := jsonLoadsChars_renderPlain b S F hS hF
  refine ⟨sv, hnum, ?_⟩
  have hne : (stripChars (renderFenced lbl P Suf b S F)).isEmpty = false :=
    stripChars_ne_empty _ '\x60' (by rcases lbl <;> rcases b <;> simp [renderFenced])
      (by decide)
  have hscan := scanFence1_renderFenced lbl P Suf b S F hP
    (plainMid_no_brace b S F hS hFb)
  have hextract : extractByPatterns (renderFenced lbl P Suf b S F)
      = some (.obj [("passed", .bool b), ("score", sv),
          ("feedback", .str (String.mk F))]) := by
    rw [extractByPatterns, hscan]
    rw [show (some (renderPlain b S F)).bind jsonLoadsChars
      = jsonLoadsChars (renderPlain b S F) from rfl]
    rw [hjl]
  rw [parseLlmChars, if_neg (by simp [hne]), hnd]
  simp +decide [hextract, pyFalsyOpt, pyFalsy, normalizeParsed, lookupKey, upsert,
    hnum, isBoolVal, isStrVal]

/-! Bullet-path lemmas. -/

theorem keyChar_not_reWs (c : Char) (h : isKeyChar c = true) : isReWs c = false := by
  by_contra hw
  simp only [Bool.not_eq_false, isReWs, Bool.or_eq_true, beq_iff_eq] at hw
  rcases hw with ((((hw | hw) | hw) | hw) | hw) | hw <;> subst hw <;>
    simp [isKeyChar] at h

theorem digitCh_not_reWs (c : Char) (h : isDigitCh c = true) : isReWs c = false := by
  by_contra hw
  simp only [Bool.not_eq_false, isReWs, Bool.or_eq_true, beq_iff_eq] at hw
  rcases hw with ((((hw | hw) | hw) | hw) | hw) | hw <;> subst hw <;>
    simp [isDigitCh] at h

theorem lowerCh_digit (c : Char) (h : isDigitCh c = true) : lowerCh c = c := by
  simp only [isDigitCh, Bool.and_eq_true, Nat.ble_eq] at h
  rw [lowerCh, if_neg]
  simp only [Bool.and_eq_true, Nat.ble_eq, not_and]
  omega

theorem mem_of_getLast? (l : List Char) (a : Char) (h : l.getLast? = some a) :
    a ∈ l := by
  induction l with
  | nil => cases h
  | cons x t ih =>
    rcases t with _ | ⟨y, t2⟩
    · simp only [List.getLast?_singleton, Option.some.injEq] at h
      simp [h]
    · rw [List.getLast?_cons_cons] at h
      exact List.mem_cons_of_mem x (ih h)

theorem patternEnd_none (cs : List Char) (h : ∀ c ∈ cs, ¬ c = '\x7d') :
    patternEnd cs = Option.none := by
  rw [patternEnd]
  rcases hgl : ((cs.reverse.dropWhile isReWs).reverse).getLast? with _ | ch
  · rfl
  · have hch : ch ∈ cs := by
      have h1 := mem_of_getLast? _ _ hgl
      rw [List.mem_reverse] at h1
      have h2 : ch ∈ cs.reverse := (List.dropWhile_sublist isReWs).subset h1
      rw [List.mem_reverse] at h2
      exact h2
    split
    · next heq =>
        injection heq with heq2
        exact absurd heq2 (h ch hch)
    · rfl

theorem renderBullets_avoid (b : Bool) (S F : List Char) (t : Char)
    (hS : JsonNumLit S = true) (hF : ∀ c ∈ F, ¬ c = t)
    (ht : isDigitCh t = false) (ht2 : ¬ t = '.')
    (hlA : ∀ c ∈ ("- passed: ".data), ¬ c = t)
    (hlBt : ∀ c ∈ ("true".data), ¬ c = t)
    (hlBf : ∀ c ∈ ("false".data), ¬ c = t)
    (hlC : ∀ c ∈ ('\n' :: "- score: ".data), ¬ c = t)
    (hlD : ∀ c ∈ ('\n' :: "- feedback: ".data), ¬ c = t) :
    ∀ c ∈ renderBullets b S F, ¬ c = t := by
  intro c hc
  simp only [renderBullets, List.mem_append] at hc
  rcases hc with ((((h | h) | h) | h) | h) | h
  · exact hlA c h
  · rcases b
    · exact hlBf c h
    · exact hlBt c h
  · exact hlC c h
  · rcases JsonNumLit_chars S hS c h with hd | hd
    · exact digit_ne c t hd ht
    · subst hd
      exact fun he => ht2 he.symm
  · exact hlD c h
  · exact hF c h

theorem jsonLoadsChars_renderBullets (b : Bool) (S F : List Char) :
    jsonLoadsChars (renderBullets b S F) = Option.none := by
  have hsplit : renderBullets b S F =
      '-' :: ' ' :: 'p' :: 'a' :: 's' :: 's' :: 'e' :: 'd' :: ':' :: ' ' ::
        ((if b then "true".data else "false".data) ++
          ('\n' :: '-' :: ' ' :: 's' :: 'c' :: 'o' :: 'r' :: 'e' :: ':' :: ' ' ::
            (S ++ ('\n' :: '-' :: ' ' :: 'f' :: 'e' :: 'e' :: 'd' :: 'b' :: 'a' ::
              'c' :: 'k' :: ':' :: ' ' :: F)))) := by
    rcases b <;> simp [renderBullets]
  rw [jsonLoadsChars, hsplit]
  simp +decide [parseValue, parseNumberChars, spanP, List.dropWhile_cons]

theorem matchBulletAt_line (k0 v0 : Char) (K V rest : List Char)
    (hk0 : isKeyChar k0 = true) (hK : ∀ c ∈ K, isKeyChar c = true)
    (hv0 : isReWs v0 = false) (hV : ∀ c ∈ (v0 :: V), ¬ c = '\n') :
    matchBulletAt '-' (' ' :: (k0 :: (K ++ ':' :: ' ' :: (v0 :: (V ++ '\n' :: rest)))))
      = some (k0 :: K, v0 :: V, '\n' :: rest) := by
  have hkall : ∀ c ∈ k0 :: K, isKeyChar c = true := by
    intro c hc
    rcases List.mem_cons.mp hc with rfl | hc2
    · exact hk0
    · exact hK c hc2
  have hs1 : spanP isReWs (' ' :: (k0 :: (K ++ ':' :: ' ' :: (v0 :: (V ++ '\n' :: rest)))))
      = ([' '], k0 :: (K ++ ':' :: ' ' :: (v0 :: (V ++ '\n' :: rest)))) :=
    spanP_append_stop isReWs [' '] (K ++ ':' :: ' ' :: (v0 :: (V ++ '\n' :: rest))) k0
      (by decide) (keyChar_not_reWs k0 hk0)
  have hs2 : spanP isKeyChar (k0 :: (K ++ ':' :: ' ' :: (v0 :: (V ++ '\n' :: rest))))
      = (k0 :: K, ':' :: ' ' :: (v0 :: (V ++ '\n' :: rest))) :=
    spanP_append_stop isKeyChar (k0 :: K) (' ' :: (v0 :: (V ++ '\n' :: rest))) ':'
      hkall (by decide)
  have hs3 : spanP isReWs (' ' :: (v0 :: (V ++ '\n' :: rest)))
      = ([' '], v0 :: (V ++ '\n' :: rest)) :=
    spanP_append_stop isReWs [' '] (V ++ '\n' :: rest) v0 (by decide) hv0
  have hs4 : spanP (fun ch => !(ch == '\n')) (v0 :: (V ++ '\n' :: rest))
      = (v0 :: V, '\n' :: rest) :=
    spanP_append_stop (fun ch => !(ch == '\n')) (v0 :: V) rest '\n'
      (fun c hc => by simpa using hV c hc) (by decide)
  rw [matchBulletAt, if_pos rfl, hs1]
  simp +decide only [hs2, hs3, hs4, List.isEmpty]
  rfl

theorem matchBulletAt_lineEnd (k0 v0 : Char) (K V : List Char)
    (hk0 : isKeyChar k0 = true) (hK : ∀ c ∈ K, isKeyChar c = true)
    (hv0 : isReWs v0 = false) (hV : ∀ c ∈ (v0 :: V), ¬ c = '\n') :
    matchBulletAt '-' (' ' :: (k0 :: (K ++ ':' :: ' ' :: (v0 :: V))))
      = some (k0 :: K, v0 :: V, []) := by
  have hkall : ∀ c ∈ k0 :: K, isKeyChar c = true := by
    intro c hc
    rcases List.mem_cons.mp hc with rfl | hc2
    · exact hk0
    · exact hK c hc2
  have hs1 : spanP isReWs (' ' :: (k0 :: (K ++ ':' :: ' ' :: (v0 :: V))))
      = ([' '], k0 :: (K ++ ':' :: ' ' :: (v0 :: V))) :=
    spanP_append_stop isReWs [' '] (K ++ ':' :: ' ' :: (v0 :: V)) k0
      (by decide) (keyChar_not_reWs k0 hk0)
  have hs2 : spanP isKeyChar (k0 :: (K ++ ':' :: ' ' :: (v0 :: V)))
      = (k0 :: K, ':' :: ' ' :: (v0 :: V)) :=
    spanP_append_stop isKeyChar (k0 :: K) (' ' :: (v0 :: V)) ':' hkall (by decide)
  have hs3 : spanP isReWs (' ' :: (v0 :: V)) = ([' '], v0 :: V) :=
    spanP_append_stop isReWs [' '] V v0 (by decide) hv0
  have hs4 : spanP (fun ch => !(ch == '\n')) (v0 :: V) = (v0 :: V, []) :=
    spanP_all_true (fun ch => !(ch == '\n')) (v0 :: V)
      (fun c hc => by simpa using hV c hc)
  rw [matchBulletAt, if_pos rfl, hs1]
  simp +decide only [hs2, hs3, hs4, List.isEmpty]
  rfl

theorem matchBulletAt_not_dash (c : Char) (cs : List Char) (hc : ¬ c = '-') :
    matchBulletAt c cs = Option.none := by
  rw [matchBulletAt, if_neg hc]

theorem findallBullet_renderBullets (b : Bool) (S : List Char) (f0 : Char) (F' : List Char)
    (hS : JsonNumLit S = true) (hf0 : isReWs f0 = false)
    (hFn : ∀ c ∈ f0 :: F', ¬ c = '\n') :
    findallBullet (renderBullets b S (f0 :: F'))
      = [("passed".data, if b then "true".data else "false".data),
         ("score".data, S), ("feedback".data, f0 :: F')] := by
  obtain ⟨d, S2, hSeq, hd⟩ := JsonNumLit_head S hS
  subst hSeq
  have hVS : ∀ c ∈ d :: S2, ¬ c = '\n' := by
    intro c hc
    rcases JsonNumLit_chars _ hS c hc with h2 | h2
    · exact digit_ne c '\n' h2 (by decide)
    · subst h2
      decide
  rcases b
  · have hsplit : renderBullets false (d :: S2) (f0 :: F') =
        '-' :: ' ' :: 'p' :: 'a' :: 's' :: 's' :: 'e' :: 'd' :: ':' :: ' ' ::
        'f' :: 'a' :: 'l' :: 's' :: 'e' :: '\n' ::
        '-' :: ' ' :: 's' :: 'c' :: 'o' :: 'r' :: 'e' :: ':' :: ' ' :: d ::
        (S2 ++ '\n' ::
          '-' :: ' ' :: 'f' :: 'e' :: 'e' :: 'd' :: 'b' :: 'a' :: 'c' :: 'k' :: ':' ::
          ' ' :: f0 :: F') := by
      simp [renderBullets]
    have hm1 : matchBulletAt '-'
        (' ' :: 'p' :: 'a' :: 's' :: 's' :: 'e' :: 'd' :: ':' :: ' ' ::
          'f' :: 'a' :: 'l' :: 's' :: 'e' :: '\n' ::
          '-' :: ' ' :: 's' :: 'c' :: 'o' :: 'r' :: 'e' :: ':' :: ' ' :: d ::
          (S2 ++ '\n' ::
            '-' :: ' ' :: 'f' :: 'e' :: 'e' :: 'd' :: 'b' :: 'a' :: 'c' :: 'k' :: ':' ::
            ' ' :: f0 :: F'))
        = some ("passed".data, "false".data,
          '\n' :: '-' :: ' ' :: 's' :: 'c' :: 'o' :: 'r' :: 'e' :: ':' :: ' ' :: d ::
          (S2 ++ '\n' ::
            '-' :: ' ' :: 'f' :: 'e' :: 'e' :: 'd' :: 'b' :: 'a' :: 'c' :: 'k' :: ':' ::
            ' ' :: f0 :: F')) :=
      matchBulletAt_line 'p' 'f' ['a', 's', 's', 'e', 'd'] ['a', 'l', 's', 'e'] _
        (by decide) (by decide) (by decide) (by decide)
    have hm2 : matchBulletAt '-'
        (' ' :: 's' :: 'c' :: 'o' :: 'r' :: 'e' :: ':' :: ' ' :: d ::
          (S2 ++ '\n' ::
            '-' :: ' ' :: 'f' :: 'e' :: 'e' :: 'd' :: 'b' :: 'a' :: 'c' :: 'k' :: ':' ::
            ' ' :: f0 :: F'))
        = some ("score".data, d :: S2,
          '\n' :: '-' :: ' ' :: 'f' :: 'e' :: 'e' :: 'd' :: 'b' :: 'a' :: 'c' :: 'k' ::
          ':' :: ' ' :: f0 :: F') :=
      matchBulletAt_line 's' d ['c', 'o', 'r', 'e'] S2 _
        (by decide) (by decide) (digitCh_not_reWs d hd) hVS
    have hm3 : matchBulletAt '-'
        (' ' :: 'f' :: 'e' :: 'e' :: 'd' :: 'b' :: 'a' :: 'c' :: 'k' :: ':' :: ' ' ::
          f0 :: F')
        = some ("feedback".data, f0 :: F', []) :=
      matchBulletAt_lineEnd 'f' f0 ['e', 'e', 'd', 'b', 'a', 'c', 'k'] F'
        (by decide) (by decide) hf0 hFn
    rw [hsplit, findallBullet_cons_some _ _ _ _ _ hm1,
      findallBullet_cons_none _ _ (matchBulletAt_not_dash '\n' _ (by decide)),
      findallBullet_cons_some _ _ _ _ _ hm2,
      findallBullet_cons_none _ _ (matchBulletAt_not_dash '\n' _ (by decide)),
      findallBullet_cons_some _ _ _ _ _ hm3]
    rfl
  · have hsplit : renderBullets true (d :: S2) (f0 :: F') =
        '-' :: ' ' :: 'p' :: 'a' :: 's' :: 's' :: 'e' :: 'd' :: ':' :: ' ' ::
        't' :: 'r' :: 'u' :: 'e' :: '\n' ::
        '-' :: ' ' :: 's' :: 'c' :: 'o' :: 'r' :: 'e' :: ':' :: ' ' :: d ::
        (S2 ++ '\n' ::
          '-' :: ' ' :: 'f' :: 'e' :: 'e' :: 'd' :: 'b' :: 'a' :: 'c' :: 'k' :: ':' ::
          ' ' :: f0 :: F') := by
      simp [renderBullets]
    have hm1 : matchBulletAt '-'
        (' ' :: 'p' :: 'a' :: 's' :: 's' :: 'e' :: 'd' :: ':' :: ' ' ::
          't' :: 'r' :: 'u' :: 'e' :: '\n' ::
          '-' :: ' ' :: 's' :: 'c' :: 'o' :: 'r' :: 'e' :: ':' :: ' ' :: d ::
          (S2 ++ '\n' ::
            '-' :: ' ' :: 'f' :: 'e' :: 'e' :: 'd' :: 'b' :: 'a' :: 'c' :: 'k' :: ':' ::
            ' ' :: f0 :: F'))
        = some ("passed".data, "true".data,
          '\n' :: '-' :: ' ' :: 's' :: 'c' :: 'o' :: 'r' :: 'e' :: ':' :: ' ' :: d ::
          (S2 ++ '\n' ::
            '-' :: ' ' :: 'f' :: 'e' :: 'e' :: 'd' :: 'b' :: 'a' :: 'c' :: 'k' :: ':' ::
            ' ' :: f0 :: F')) :=
      matchBulletAt_line 'p' 't' ['a', 's', 's', 'e', 'd'] ['r', 'u', 'e'] _
        (by decide) (by decide) (by decide) (by decide)
    have hm2 : matchBulletAt '-'
        (' ' :: 's' :: 'c' :: 'o' :: 'r' :: 'e' :: ':' :: ' ' :: d ::
          (S2 ++ '\n' ::
            '-' :: ' ' :: 'f' :: 'e' :: 'e' :: 'd' :: 'b' :: 'a' :: 'c' :: 'k' :: ':' ::
            ' ' :: f0 :: F'))
        = some ("score".data, d :: S2,
          '\n' :: '-' :: ' ' :: 'f' :: 'e' :: 'e' :: 'd' :: 'b' :: 'a' :: 'c' :: 'k' ::
          ':' :: ' ' :: f0 :: F') :=
      matchBulletAt_line 's' d ['c', 'o', 'r', 'e'] S2 _
        (by decide) (by decide) (digitCh_not_reWs d hd) hVS
    have hm3 : matchBulletAt '-'
        (' ' :: 'f' :: 'e' :: 'e' :: 'd' :: 'b' :: 'a' :: 'c' :: 'k' :: ':' :: ' ' ::
          f0 :: F')
        = some ("feedback".data, f0 :: F', []) :=
      matchBulletAt_lineEnd 'f' f0 ['e', 'e', 'd', 'b', 'a', 'c', 'k'] F'
        (by decide) (by decide) hf0 hFn
    rw [hsplit, findallBullet_cons_some _ _ _ _ _ hm1,
      findallBullet_cons_none _ _ (matchBulletAt_not_dash '\n' _ (by decide)),
      findallBullet_cons_some _ _ _ _ _ hm2,
      findallBullet_cons_none _ _ (matchBulletAt_not_dash '\n' _ (by decide)),
      findallBullet_cons_some _ _ _ _ _ hm3]
    rfl

theorem removeFirstDot_no_dot (xs : List Char) (h : ∀ c ∈ xs, ¬ c = '.') :
    removeFirstDot xs = xs := by
  induction xs with
  | nil => rfl
  | cons c cs ih =>
    rw [removeFirstDot, if_neg (h c (by simp)), ih (fun d hd => h d (by simp [hd]))]

theorem removeFirstDot_split (xs ys : List Char) (h : ∀ c ∈ xs, ¬ c = '.') :
    removeFirstDot (xs ++ '.' :: ys) = xs ++ ys := by
  induction xs with
  | nil =>
    rw [List.nil_append, removeFirstDot, if_pos rfl, List.nil_append]
  | cons c cs ih =>
    rw [List.cons_append, removeFirstDot, if_neg (h c (by simp)),
      ih (fun d hd => h d (by simp [hd])), List.cons_append]

theorem JsonNumLit_removeDot_digits (S : List Char) (hS : JsonNumLit S = true) :
    isDigitStr (removeFirstDot S) = true := by
  rcases hsp : spanP isDigitCh S with ⟨ip, r2⟩
  have hA := spanP_append_eq isDigitCh S
  rw [hsp] at hA
  have hip : ∀ c ∈ ip, isDigitCh c = true := by
    have h0 := spanP_fst_all isDigitCh S
    rw [hsp] at h0
    exact h0
  have hipd : ∀ c ∈ ip, ¬ c = '.' := fun c hc => digit_ne c '.' (hip c hc) (by decide)
  rw [JsonNumLit, hsp] at hS
  dsimp only at hS
  simp only [Bool.and_eq_true, Bool.or_eq_true] at hS
  obtain ⟨⟨h1, h2⟩, h3⟩ := hS
  have hipne : ip.isEmpty = false := by simpa using h1
  rw [← hA]
  rcases h3 with hemp | hdot
  · rw [List.isEmpty_iff] at hemp
    rw [hemp, List.append_nil, removeFirstDot_no_dot ip hipd]
    simp [isDigitStr, hipne, List.all_eq_true]
    intro c hc
    exact hip c hc
  · rcases r2 with _ | ⟨d0, r3⟩
    · simp at hdot
    · have hd0 : d0 = '.' := by simpa using hdot.1
      subst hd0
      rcases hfd : spanP isDigitCh r3 with ⟨fd1, fd2⟩
      have hd2 := hdot.2
      rw [show ('.' :: r3).tail = r3 from rfl, hfd] at hd2
      dsimp only at hd2
      first
      | simp only [Bool.and_eq_true] at hd2
      | skip
      have hfd2 : fd2 = [] := by
        rw [List.isEmpty_iff] at hd2
        exact hd2.2
      have hA3 := spanP_append_eq isDigitCh r3
      rw [hfd] at hA3
      dsimp only at hA3
      rw [hfd2, List.append_nil] at hA3
      have hfall : ∀ c ∈ fd1, isDigitCh c = true := by
        have h0 := spanP_fst_all isDigitCh r3
        rw [hfd] at h0
        exact h0
      rw [← hA3, removeFirstDot_split ip fd1 hipd]
      rcases ip with _ | ⟨i0, ip2⟩
      · simp at hipne
      · simp [isDigitStr, List.all_eq_true]
        constructor
        · exact hip i0 (by simp)
        · exact ⟨fun c hc => hip c (by simp [hc]), hfall⟩

theorem bulletVal_num (S : List Char) (hS : JsonNumLit S = true) :
    bulletVal S = .float (floatOfBullet S) := by
  obtain ⟨d, S2, hSeq, hd⟩ := JsonNumLit_head S hS
  subst hSeq
  have hlt : ¬ lowerChars (d :: S2) = "true".data := by
    intro h
    have hh := congrArg List.head? h
    simp only [lowerChars, List.map_cons, List.head?_cons] at hh
    rw [lowerCh_digit d hd] at hh
    exact digit_ne d 't' hd (by decide) (by simpa using hh)
  have hlf : ¬ lowerChars (d :: S2) = "false".data := by
    intro h
    have hh := congrArg List.head? h
    simp only [lowerChars, List.map_cons, List.head?_cons] at hh
    rw [lowerCh_digit d hd] at hh
    exact digit_ne d 'f' hd (by decide) (by simpa using hh)
  rw [bulletVal, if_neg hlt, if_neg hlf,
    if_pos (JsonNumLit_removeDot_digits (d :: S2) hS)]

theorem bulletVal_str (F : List Char)
    (h1 : ¬ lowerChars F = "true".data) (h2 : ¬ lowerChars F = "false".data)
    (h3 : isDigitStr (removeFirstDot F) = false) :
    bulletVal F = .str (String.mk (stripChars F)) := by
  rw [bulletVal, if_neg h1, if_neg h2, if_neg (by simp [h3])]

theorem bulletObj_renderBullets (b : Bool) (S : List Char) (f0 : Char) (F' : List Char)
    (hS : JsonNumLit S = true) (hf0 : isReWs f0 = false)
    (hFn : ∀ c ∈ f0 :: F', ¬ c = '\n')
    (h1 : ¬ lowerChars (f0 :: F') = "true".data)
    (h2 : ¬ lowerChars (f0 :: F') = "false".data)
    (h3 : isDigitStr (removeFirstDot (f0 :: F')) = false) :
    bulletObj (renderBullets b S (f0 :: F'))
      = [("passed", .bool b), ("score", .float (floatOfBullet S)),
         ("feedback", .str (String.mk (stripChars (f0 :: F'))))] := by
  rw [bulletObj, findallBullet_renderBullets b S f0 F' hS hf0 hFn]
  have hbv1 : bulletVal (if b then "true".data else "false".data) = .bool b := by
    rcases b <;> rfl
  simp +decide [List.foldl, upsert, hbv1, bulletVal_num S hS,
    bulletVal_str (f0 :: F') h1 h2 h3]

theorem containsSeq_of_startsWith (cs n : List Char)
    (h : startsWithChars cs n = true) : containsSeq cs n = true := by
  rcases cs with _ | ⟨c, cs⟩
  · rcases n with _ | ⟨p, ps⟩
    · rfl
    · simp [startsWithChars] at h
  · rw [containsSeq, h, Bool.true_or]

/-- Extraction on the bullet rendering: with no backtick or closing brace in
the feedback text, direct parse and all three patterns fail, the trigger
substring is present, and the synthesized bullet object normalizes to the
typed judgment (provided the feedback text is not itself coerced to a
boolean or a number by the static heuristics). -/
theorem parseLlmChars_renderBullets (b : Bool) (S : List Char) (f0 : Char) (F' : List Char)
    (hS : JsonNumLit S = true) (hf0 : isReWs f0 = false)
    (hFn : ∀ c ∈ f0 :: F', ¬ c = '\n')
    (hFt : ∀ c ∈ f0 :: F', ¬ c = '\x60') (hFbr : ∀ c ∈ f0 :: F', ¬ c = '\x7d')
    (h1 : ¬ lowerChars (f0 :: F') = "true".data)
    (h2 : ¬ lowerChars (f0 :: F') = "false".data)
    (h3 : isDigitStr (removeFirstDot (f0 :: F')) = false) :
    parseLlmChars (renderBullets b S (f0 :: F'))
      = .ok (.obj [("passed", .bool b), ("score", .float (floatOfBullet S)),
          ("feedback", .str (String.mk (stripChars (f0 :: F'))))]) := by
  have hne : (stripChars (renderBullets b S (f0 :: F'))).isEmpty = false :=
    stripChars_ne_empty _ '-' (by rcases b <;> simp [renderBullets]) (by decide)
  have hnd := jsonLoadsChars_renderBullets b S (f0 :: F')
  have hbt : ∀ c ∈ renderBullets b S (f0 :: F'), ¬ c = '\x60' :=
    renderBullets_avoid b S (f0 :: F') '\x60' hS hFt (by decide) (by decide)
      (by decide) (by decide) (by decide) (by decide) (by decide)
  have hbr : ∀ c ∈ renderBullets b S (f0 :: F'), ¬ c = '\x7d' :=
    renderBullets_avoid b S (f0 :: F') '\x7d' hS hFbr (by decide) (by decide)
      (by decide) (by decide) (by decide) (by decide) (by decide)
  have hextract : extractByPatterns (renderBullets b S (f0 :: F')) = Option.none := by
    rw [extractByPatterns, scanFence1_none _ hbt, scanFence2_none _ hbt,
      patternEnd_none _ hbr]
    rfl
  have hsw : startsWithChars (renderBullets b S (f0 :: F')) ("- passed:".data) = true := by
    rw [show ("- passed:".data)
      = '-' :: ' ' :: 'p' :: 'a' :: 's' :: 's' :: 'e' :: 'd' :: ':' :: [] from rfl]
    rcases b
    · rw [show renderBullets false S (f0 :: F') =
          '-' :: ' ' :: 'p' :: 'a' :: 's' :: 's' :: 'e' :: 'd' :: ':' :: ' ' ::
          'f' :: 'a' :: 'l' :: 's' :: 'e' :: '\n' ::
          '-' :: ' ' :: 's' :: 'c' :: 'o' :: 'r' :: 'e' :: ':' :: ' ' ::
          (S ++ '\n' ::
            '-' :: ' ' :: 'f' :: 'e' :: 'e' :: 'd' :: 'b' :: 'a' :: 'c' :: 'k' :: ':' ::
            ' ' :: f0 :: F') from by simp [renderBullets]]
      simp +decide [startsWithChars]
    · rw [show renderBullets true S (f0 :: F') =
          '-' :: ' ' :: 'p' :: 'a' :: 's' :: 's' :: 'e' :: 'd' :: ':' :: ' ' ::
          't' :: 'r' :: 'u' :: 'e' :: '\n' ::
          '-' :: ' ' :: 's' :: 'c' :: 'o' :: 'r' :: 'e' :: ':' :: ' ' ::
          (S ++ '\n' ::
            '-' :: ' ' :: 'f' :: 'e' :: 'e' :: 'd' :: 'b' :: 'a' :: 'c' :: 'k' :: ':' ::
            ' ' :: f0 :: F') from by simp [renderBullets]]
      simp +decide [startsWithChars]
  have htrig : hasBulletTrigger (renderBullets b S (f0 :: F')) = true := by
    rw [hasBulletTrigger, containsSeq_of_startsWith _ _ hsw]
    simp
  rw [parseLlmChars, if_neg (by simp [hne]), hnd]
  simp +decide [hextract, bulletObj_renderBullets b S f0 F' hS hf0 hFn h1 h2 h3,
    htrig, pyFalsyOpt, pyFalsy, normalizeParsed, lookupKey, upsert, isBoolVal,
    isStrVal, isNumVal, pyFloat]

/-- Claim C1 (corrected): for each of the three supported shapes, extraction
returns a typed judgment (`passed` boolean, `score` float, `feedback`
string) provided the text is well formed in the corrected sense: the plain
shape for any JSON number literal score and any feedback string of plain
characters; the fenced shape additionally requires backtick-free prose, a
feedback free of closing braces (otherwise the lazy capture is truncated,
see the counterexample) and that the whole text is not itself JSON; the
bullet shape requires newline/backtick/brace-free feedback text that the
static heuristics do not coerce to a boolean or number.  The original
"regardless of surrounding prose" is false without these conditions. -/
theorem three_shapes_extract_typed_judgment :
    (∀ (b : Bool) (S F : List Char), JsonNumLit S = true →
      (∀ c ∈ F, jsonSafeChar c = true) →
      ∃ q : ℚ, parse_json_from_llm_output (String.mk (renderPlain b S F))
        = .ok (.obj [("passed", .bool b), ("score", .float q),
            ("feedback", .str (String.mk F))])) ∧
    (∀ (lbl : Bool) (P Suf : List Char) (b : Bool) (S F : List Char),
      JsonNumLit S = true → (∀ c ∈ F, jsonSafeChar c = true) →
      (∀ c ∈ F, ¬ c = '\x7d') → (∀ c ∈ P, ¬ c = '\x60') →
      jsonLoadsChars (renderFenced lbl P Suf b S F) = Option.none →
      ∃ q : ℚ, parse_json_from_llm_output (String.mk (renderFenced lbl P Suf b S F))
        = .ok (.obj [("passed", .bool b), ("score", .float q),
            ("feedback", .str (String.mk F))])) ∧
    (∀ (b : Bool) (S : List Char) (f0 : Char) (F' : List Char),
      JsonNumLit S = true → isReWs f0 = false →
      (∀ c ∈ f0 :: F', ¬ c = '\n') → (∀ c ∈ f0 :: F', ¬ c = '\x60') →
      (∀ c ∈ f0 :: F', ¬ c = '\x7d') →
      ¬ lowerChars (f0 :: F') = "true".data →
      ¬ lowerChars (f0 :: F') = "false".data →
      isDigitStr (removeFirstDot (f0 :: F')) = false →
      parse_json_from_llm_output (String.mk (renderBullets b S (f0 :: F')))
        = .ok (.obj [("passed", .bool b), ("score", .float (floatOfBullet S)),
            ("feedback", .str (String.mk (stripChars (f0 :: F'))))])) := by
  refine ⟨?_, ?_, ?_⟩
  · intro b S F hS hF
    obtain ⟨sv, hnum, heq⟩ := parseLlmChars_renderPlain b S F hS hF
    exact ⟨pyFloat sv, heq⟩
  · intro lbl P Suf b S F hS hF hFb hP hnd
    obtain ⟨sv, hnum, heq⟩ := parseLlmChars_renderFenced lbl P Suf b S F hS hF hFb hP hnd
    exact ⟨pyFloat sv, heq⟩
  · intro b S f0 F' hS hf0 hFn hFt hFbr h1 h2 h3
    exact parseLlmChars_renderBullets b S f0 F' hS hf0 hFn hFt hFbr h1 h2 h3

theorem three_shapes_extract_typed_judgment_witness :
    (∃ q : ℚ, parse_json_from_llm_output
        "\x7b\"passed\": true, \"score\": 0.5, \"feedback\": \"ok\"\x7d"
      = .ok (.obj [("passed", .bool true), ("score", .float q),
          ("feedback", .str "ok")])) ∧
    (∃ q : ℚ, parse_json_from_llm_output
        "Here: \x60\x60\x60json\n\x7b\"passed\": true, \"score\": 0.5, \"feedback\": \"ok\"\x7d\n\x60\x60\x60 done"
      = .ok (.obj [("passed", .bool true), ("score", .float q),
          ("feedback", .str "ok")])) ∧
    parse_json_from_llm_output "- passed: false\n- score: 0.5\n- feedback: ok!"
      = .ok (.obj [("passed", .bool false), ("score", .float (floatOfBullet ("0.5".data))),
          ("feedback", .str "ok!")]) :=
  ⟨three_shapes_extract_typed_judgment.1 true ("0.5".data) ("ok".data)
      (by decide) (by decide),
   three_shapes_extract_typed_judgment.2.1 true ("Here: ".data) (" done".data) true
      ("0.5".data) ("ok".data) (by decide) (by decide) (by decide) (by decide) (by rfl),
   three_shapes_extract_typed_judgment.2.2 false ("0.5".data) 'o' ("k!".data)
      (by decide) (by decide) (by decide) (by decide) (by decide) (by decide)
      (by decide) (by decide)⟩

end EdgePrompt
